import Mathlib

/-!
Verification of the download task/subtask scheduling engine of
`src/renderer/store/Download.ts` (lanzouyun-disk).

The mutable mobx store `Download` is embedded as a pure state type
`DownloadState`; every public operation becomes a state-transformer
function translated statement by statement from the source.  The
asynchronous transfer body of `start` is split at its await points:
the synchronous scheduling prefix (`startStep`), the registration of
the cancellation token (`attachSignal`), the header handling
(`applyHeaders`), and the two continuations of the `pipeline` promise
(`transferSuccess` for the fulfilled path including the `finish-task`
handler, `transferCatch` for the catch branch).  External collaborators
(share-listing service, HTTP client, filesystem, filename utilities)
are supplied as explicit environments.
-/

/-- Subtask / task status, from `AbstractTask.TaskStatus` as described in the
spec: `status ∈ {ready, pending, pause, fail, finish}`. -/
inductive TaskStatus where
  | ready
  | pending
  | pause
  | fail
  | finish
deriving DecidableEq, Repr, Fintype

/-- Task type, from `common/core/ls.URLType`: file or folder. -/
inductive URLType where
  | file
  | folder
deriving DecidableEq, Repr

/-- A JavaScript number that may be `NaN` (the result of `Number(undefined)`,
which matters for the `content-length` header handling). -/
inductive JSNum where
  | num (n : Nat)
  | nan
deriving DecidableEq, Repr

/-- `DownloadSubTask` (Download.ts lines 20-28). -/
structure DownloadSubTask where
  url : String
  pwd : Option String
  dir : String
  name : String
  resolve : Nat
  status : TaskStatus
  size : JSNum
deriving DecidableEq, Repr

/-- `DownloadTask` (Download.ts lines 34-67).  `urlType` is unset until the
task is initialised, and the optional `merge` flag is modelled by its JS
truthiness. -/
structure DownloadTask where
  url : String
  urlType : Option URLType
  name : String
  dir : String
  pwd : Option String
  merge : Bool
  tasks : List DownloadSubTask
deriving DecidableEq, Repr

/-- One `AbortController` as far as the store observes it: its
`signal.aborted` flag. -/
structure Signal where
  aborted : Bool
deriving DecidableEq, Repr

/-- The observable state of the `Download` store: the active `list`, the
`finishList`, the `taskSignal` map (an association list keyed by url, as the
JS object is), and the default download `dir`. -/
structure DownloadState where
  list : List DownloadTask
  finishList : List DownloadTask
  taskSignal : List (String × Signal)
  dir : String
deriving DecidableEq, Repr

/-- `path.join a b` for the fragments the store builds. -/
def pathJoin (a b : String) : String := a ++ "/" ++ b

/-- Lookup in the `taskSignal` object. -/
def sigLookup (m : List (String × Signal)) (k : String) : Option Signal :=
  (m.find? (fun e => decide (e.1 = k))).map (·.2)

/-- Assignment `m[k] = v` on the `taskSignal` object. -/
def sigInsert (m : List (String × Signal)) (k : String) (v : Signal) :
    List (String × Signal) :=
  if (m.find? (fun e => decide (e.1 = k))).isSome then
    m.map (fun e => if decide (e.1 = k) then (k, v) else e)
  else m ++ [(k, v)]

/-- `delete m[k]` on the `taskSignal` object. -/
def sigErase (m : List (String × Signal)) (k : String) :
    List (String × Signal) :=
  m.filter (fun e => !decide (e.1 = k))

/-- In-place mutation of the first list element satisfying `p` (the effect of
`list.find(p)` followed by mutating the found object). -/
def updateFirst (p : α → Bool) (f : α → α) : List α → List α
  | [] => []
  | x :: xs => if p x then f x :: xs else x :: updateFirst p f xs

/-- `getList` (Download.ts lines 171-176): all subtasks of all active tasks
matching a filter. -/
def getList (s : DownloadState) (f : DownloadSubTask → Bool) :
    List DownloadSubTask :=
  ((s.list.map (fun t => t.tasks)).flatten).filter f

/-- The `queue` getter (Download.ts lines 90-92): number of `pending`
subtasks across the entire active list. -/
def queue (s : DownloadState) : Nat :=
  (getList s (fun st => decide (st.status = TaskStatus.pending))).length

/-- `canStart` (Download.ts lines 178-180): global cap of 3 pending
subtasks.  The `task` argument of the source is unused there as well. -/
def canStart (s : DownloadState) : Bool :=
  decide (queue s < 3)

/-- Effect of `abortTask` (Download.ts lines 182-192) on the signal map,
given the subtask's url: if an entry is present it is aborted and then
immediately deleted, otherwise nothing happens. -/
def abortTaskSig (m : List (String × Signal)) (u : String) :
    List (String × Signal) :=
  match sigLookup m u with
  | some _ => sigErase m u
  | none => m

/-- The per-subtask status mutation of `pause` (Download.ts lines 198-203):
`ready` and `pending` subtasks are set to `pause`. -/
def pauseSub (st : DownloadSubTask) : DownloadSubTask :=
  if st.status = TaskStatus.ready ∨ st.status = TaskStatus.pending then
    { st with status := TaskStatus.pause }
  else st

/-- `pause(url)` (Download.ts lines 194-206): find the task, set every
`ready`/`pending` subtask to `pause` and run `abortTask` (keyed by the
subtask's url) for each of them. -/
def pauseStep (url : String) (s : DownloadState) : DownloadState :=
  match s.list.find? (fun t => decide (t.url = url)) with
  | none => s
  | some t =>
    { s with
      list := updateFirst (fun t' => decide (t'.url = url))
        (fun t' => { t' with tasks := t'.tasks.map pauseSub }) s.list
      taskSignal :=
        ((t.tasks.filter (fun st =>
            decide (st.status = TaskStatus.ready) ||
            decide (st.status = TaskStatus.pending))).foldl
          (fun m st => abortTaskSig m st.url) s.taskSignal) }

/-- `pauseAll` (Download.ts lines 208-210): `pause` for every active url. -/
def pauseAllStep (s : DownloadState) : DownloadState :=
  (s.list.map (fun t => t.url)).foldl (fun acc u => pauseStep u acc) s

/-- `remove(url)` (Download.ts lines 212-215): `abortTask` every subtask of
the found task, then drop the task from the list. -/
def removeStep (url : String) (s : DownloadState) : DownloadState :=
  let sig := match s.list.find? (fun t => decide (t.url = url)) with
    | none => s.taskSignal
    | some t => t.tasks.foldl (fun m st => abortTaskSig m st.url) s.taskSignal
  { s with
    taskSignal := sig
    list := s.list.filter (fun t => !decide (t.url = url)) }

/-- `removeAll` (Download.ts lines 217-220). -/
def removeAllStep (s : DownloadState) : DownloadState :=
  { s with
    taskSignal := ((s.list.map (fun t => t.tasks)).flatten).foldl
      (fun m st => abortTaskSig m st.url) s.taskSignal
    list := [] }

/-- `removeAllFinish` (Download.ts lines 222-224). -/
def removeAllFinishStep (s : DownloadState) : DownloadState :=
  { s with finishList := [] }

/-- One entry of the share listing returned by `lsShare`. -/
structure LsEntry where
  url : String
  name : String
  size : String
  pwd : Option String

/-- Result of `lsShare(task)`. -/
structure LsResult where
  name : String
  type : URLType
  list : List LsEntry

/-- External collaborators used by `initTask`: the share-listing service and
the filename utilities of `common/util`. -/
structure Env where
  lsShare : DownloadTask → LsResult
  sizeToByte : String → Nat
  isSpecificFile : String → Bool
  restoreFileName : String → String

/-- The tail of `initTask` after `await lsShare(task)` (Download.ts lines
326-345): the share listing has arrived and the task's `urlType`, `name`
and subtasks are assigned, sharing one `<dir>/<name>.downloading` temporary
directory; entry names are restored unless in merge mode.  These
assignments run unconditionally at resumption - the re-entry guard of line
325 was evaluated before the suspension. -/
def initTaskResume (env : Env) (task : DownloadTask) : DownloadTask :=
  let r := env.lsShare task
  let name := if task.name = "" then r.name else task.name
  let dir := pathJoin task.dir name ++ ".downloading"
  { task with
    urlType := some r.type
    name := name
    tasks := r.list.map (fun v =>
      { url := v.url
        pwd := v.pwd
        dir := dir
        name := if !task.merge && env.isSpecificFile v.name then
            env.restoreFileName v.name
          else v.name
        size := JSNum.num (env.sizeToByte v.size)
        resolve := 0
        status := TaskStatus.ready }) }

/-- `initTask` (Download.ts lines 324-346) run without interruption: the
guard of line 325, then the listing and the subtask assignment. -/
def initTask (env : Env) (task : DownloadTask) : DownloadTask :=
  if !task.tasks.isEmpty then task
  else initTaskResume env task

/-- The `reset` branch of `start` (Download.ts lines 237-243): `pause` and
`fail` subtasks go back to `ready`. -/
def resetPauseFail (st : DownloadSubTask) : DownloadSubTask :=
  if st.status = TaskStatus.pause ∨ st.status = TaskStatus.fail then
    { st with status := TaskStatus.ready }
  else st

/-- Mark the first `ready` subtask `pending` (Download.ts lines 246-249);
if there is none, nothing changes (the source returns). -/
def markFirstReadyPending (l : List DownloadSubTask) : List DownloadSubTask :=
  updateFirst (fun st => decide (st.status = TaskStatus.ready))
    (fun st => { st with status := TaskStatus.pending }) l

/-- The mutation `start` performs on the found task before the transfer
begins: optional `initTask`, optional reset, then mark the first `ready`
subtask `pending`. -/
def startTaskUpdate (env : Env) (reset : Bool) (t : DownloadTask) :
    DownloadTask :=
  let t1 := if t.tasks.isEmpty then initTask env t
    else if reset then { t with tasks := t.tasks.map resetPauseFail } else t
  { t1 with tasks := markFirstReadyPending t1.tasks }

/-- The scheduling prefix of `start(url, reset)` (Download.ts lines
230-249) run without interruption: find the task (return if absent), check
`canStart` (return if at capacity), then apply `startTaskUpdate` to the
found task.  When the task has no subtasks yet, line 236 awaits `initTask`
between the `canStart` check and the `pending` mark; this step renders the
run in which nothing interleaves during that await - the suspension itself,
with other steps interleaved before the resumption, is modelled by
`suspendStart`/`resumeStart` below. -/
def startStep (env : Env) (url : String) (reset : Bool) (s : DownloadState) :
    DownloadState :=
  match s.list.find? (fun t => decide (t.url = url)) with
  | none => s
  | some _ =>
    if canStart s then
      { s with
        list := updateFirst (fun t => decide (t.url = url))
          (startTaskUpdate env reset) s.list }
    else s

/-- The per-task reset of `startAll` (Download.ts lines 350-354): only
`pause` subtasks go back to `ready` - `fail` subtasks are not touched. -/
def resetPausesOf (u : String) (s : DownloadState) : DownloadState :=
  { s with
    list := updateFirst (fun t => decide (t.url = u))
      (fun t => { t with tasks := t.tasks.map (fun st =>
        if st.status = TaskStatus.pause then
          { st with status := TaskStatus.ready }
        else st) }) s.list }

/-- `startAll` (Download.ts lines 348-358): for every task, set its `pause`
subtasks back to `ready`, then call `start(url)` with the default
`reset = false`. -/
def startAllStep (env : Env) (s : DownloadState) : DownloadState :=
  (s.list.map (fun t => t.url)).foldl
    (fun acc u => startStep env u false (resetPausesOf u acc)) s

/-- Registration of the cancellation token (Download.ts lines 270-271):
`this.taskSignal[task.url] = abort` - the key is the url of the enclosing
`task` (the `DownloadTask`), not of the `subTask` being transferred. -/
def attachSignal (taskUrl : String) (s : DownloadState) : DownloadState :=
  { s with taskSignal := sigInsert s.taskSignal taskUrl (Signal.mk false) }

/-- Response headers as far as `start` inspects them. -/
structure RespHeaders where
  contentLength : Option Nat
  contentDisposition : Option String

/-- `Number` applied to an optional header value: `Number(undefined) = NaN`. -/
def numOf : Option Nat → JSNum
  | some n => JSNum.num n
  | none => JSNum.nan

/-- Header handling of `start` (Download.ts lines 260-263): when the
response carries a `content-disposition` the subtask's `size` is assigned
`Number(headers['content-length'])` - the presence of `content-length`
itself is not checked. -/
def applyHeaders (h : RespHeaders) (st : DownloadSubTask) : DownloadSubTask :=
  if h.contentDisposition.isSome then { st with size := numOf h.contentLength }
  else st

/-- Mutate the first subtask with url `su` of the first task with url `tu`
(the objects the `start` closure captured, located by url). -/
def updateSubAt (tu su : String) (f : DownloadSubTask → DownloadSubTask)
    (s : DownloadState) : DownloadState :=
  { s with
    list := updateFirst (fun t => decide (t.url = tu))
      (fun t => { t with
        tasks := updateFirst (fun st => decide (st.url = su)) f t.tasks })
      s.list }

/-- First phase of the fulfilled transfer path (Download.ts lines 279-280
and line 117): `subTask.status = finish`, then the `finish-task` handler
runs `delete this.taskSignal[task.url]` where `task` is the subtask - the
deleted key is the subtask's url. -/
def transferMark (tu su : String) (s : DownloadState) : DownloadState :=
  let s1 := updateSubAt tu su
    (fun st => { st with status := TaskStatus.finish }) s
  { s1 with taskSignal := sigErase s1.taskSignal su }

/-- The `finish-task` handler's dispatch (Download.ts lines 118-122): if
every subtask of the task is `finish`, the `finish` handler removes the task
from the active list and records it in `finishList`; otherwise `start` is
called again for the task. -/
def transferFinishDispatch (env : Env) (tu : String) (s2 : DownloadState) :
    DownloadState :=
  match s2.list.find? (fun t => decide (t.url = tu)) with
  | none => s2
  | some t =>
    if t.tasks.all (fun st => decide (st.status = TaskStatus.finish)) then
      { removeStep tu s2 with
        finishList := (removeStep tu s2).finishList ++ [t] }
    else startStep env tu false s2

/-- Fulfilled path of the transfer of subtask `su` of task `tu` (Download.ts
lines 279-280 plus the `finish-task` handler of lines 116-123): mark the
subtask `finish`, delete the signal entry keyed by the subtask's url, then
dispatch on whether the whole task is finished. -/
def transferSuccess (env : Env) (tu su : String) (s : DownloadState) :
    DownloadState :=
  match s.list.find? (fun t => decide (t.url = tu)) with
  | none => s
  | some _ => transferFinishDispatch env tu (transferMark tu su s)

/-- Catch branch of the transfer of subtask `su` of task `tu` (Download.ts
lines 281-288): if `this.taskSignal[task.url]?.signal?.aborted` (keyed by
the task's url) the subtask becomes `pause`, otherwise `fail`. -/
def transferCatch (tu su : String) (s : DownloadState) : DownloadState :=
  let aborted := match sigLookup s.taskSignal tu with
    | some sig => sig.aborted
    | none => false
  updateSubAt tu su
    (fun st => { st with
      status := if aborted then TaskStatus.pause else TaskStatus.fail }) s

/-- External collaborators of the admission path: filename utilities,
`fs.existsSync`, and the user's answer to the overwrite confirmation. -/
structure AddEnv where
  isSpecificFile : String → Bool
  restoreFileName : String → String
  existsSync : String → Bool
  confirmDelete : Bool

/-- `pushAndCheckList` (Download.ts lines 361-377): reject a url already in
the active list, reject a declined overwrite, otherwise append the task. -/
def pushAndCheckList (env : AddEnv) (task : DownloadTask) (s : DownloadState) :
    Except String Unit × DownloadState :=
  if (s.list.find? (fun v => decide (v.url = task.url))).isSome then
    (Except.error "文件已存在下载列表!", s)
  else
    let name := env.restoreFileName (pathJoin task.dir task.name)
    if env.existsSync name && !env.confirmDelete then
      (Except.error "取消重新下载", s)
    else (Except.ok (), { s with list := s.list ++ [task] })

/-- Argument record of `addTask` (Download.ts lines 383-388). -/
structure AddOptions where
  name : String
  url : String
  pwd : Option String
  merge : Bool

/-- `addTask` (Download.ts lines 383-398): build the new task (name
restored when specific, destination = the store's `dir`, no subtasks yet)
and run `pushAndCheckList`. -/
def addTask (env : AddEnv) (o : AddOptions) (s : DownloadState) :
    Except String Unit × DownloadState :=
  let task : DownloadTask :=
    { url := o.url
      urlType := none
      name := if env.isSpecificFile o.name then env.restoreFileName o.name
        else o.name
      dir := s.dir
      pwd := o.pwd
      merge := o.merge
      tasks := [] }
  pushAndCheckList env task s

/-- The status of the subtask with url `su` of the (first) task with url
`tu` in a task list. -/
def statusIn (l : List DownloadTask) (tu su : String) : Option TaskStatus :=
  match l.find? (fun t => decide (t.url = tu)) with
  | none => none
  | some t => (t.tasks.find? (fun st => decide (st.url = su))).map (·.status)

/-- The status of the subtask with url `su` of the (first) active task with
url `tu`, the observable the status-machine claims quantify over. -/
def statusAt (s : DownloadState) (tu su : String) : Option TaskStatus :=
  statusIn s.list tu su

/-- One scheduler step: any public operation, or one of the asynchronous
transfer continuations of `start`. -/
inductive Step : DownloadState → DownloadState → Prop where
  | start (env : Env) (url : String) (reset : Bool) (s : DownloadState) :
      Step s (startStep env url reset s)
  | startAll (env : Env) (s : DownloadState) : Step s (startAllStep env s)
  | pause (url : String) (s : DownloadState) : Step s (pauseStep url s)
  | pauseAll (s : DownloadState) : Step s (pauseAllStep s)
  | remove (url : String) (s : DownloadState) : Step s (removeStep url s)
  | removeAll (s : DownloadState) : Step s (removeAllStep s)
  | removeAllFinish (s : DownloadState) : Step s (removeAllFinishStep s)
  | add (env : AddEnv) (o : AddOptions) (s : DownloadState) :
      Step s (addTask env o s).2
  | attach (taskUrl : String) (s : DownloadState) :
      Step s (attachSignal taskUrl s)
  | headers (tu su : String) (h : RespHeaders) (s : DownloadState) :
      Step s (updateSubAt tu su (applyHeaders h) s)
  | progress (tu su : String) (n : Nat) (s : DownloadState) :
      Step s (updateSubAt tu su (fun st => { st with resolve := n }) s)
  | success (env : Env) (tu su : String) (s : DownloadState) :
      Step s (transferSuccess env tu su s)
  | tcatch (tu su : String) (s : DownloadState) :
      Step s (transferCatch tu su s)

/-- A freshly constructed store: empty lists, empty signal map. -/
def initState (dir : String) : DownloadState :=
  { list := [], finishList := [], taskSignal := [], dir := dir }

/-- States of the store reachable from a fresh store by scheduler steps,
with every `start` call running uninterrupted. -/
inductive Reachable : DownloadState → Prop where
  | init (dir : String) : Reachable (initState dir)
  | step {s s' : DownloadState} : Reachable s → Step s s' → Reachable s'

/-- Scheduler state extended with the `start` calls currently suspended at
`await this.initTask(task)` (Download.ts line 236): their address
resolution is in flight and the rest of `start` (line 246 onward) runs only
when it resolves.  A suspended call is recorded by its task's url; its
`reset` flag is irrelevant after the suspension, because the
`else if (reset)` branch of line 237 is skipped when the `initTask` branch
was taken. -/
structure SchedState where
  store : DownloadState
  suspended : List String
deriving DecidableEq, Repr

/-- Entry of `start(url)` into the `initTask` await (Download.ts lines
230-236): the task is found, `canStart` passes, the task has no subtasks
yet, and the call suspends - no store mutation has happened at this point.
In every other situation no suspension arises and nothing changes. -/
def suspendStart (url : String) (σ : SchedState) : SchedState :=
  match σ.store.list.find? (fun t => decide (t.url = url)) with
  | none => σ
  | some t =>
    if canStart σ.store then
      if t.tasks.isEmpty then { σ with suspended := url :: σ.suspended }
      else σ
    else σ

/-- Drop one occurrence of a url from the suspended list. -/
def removeFirstStr (u : String) : List String → List String
  | [] => []
  | x :: xs => if decide (x = u) then xs else x :: removeFirstStr u xs

/-- Resumption of a `start` call suspended at `initTask` (Download.ts lines
326-345, then line 246): the share listing arrives and the subtasks are
assigned, then execution continues directly at line 246, marking the first
`ready` subtask `pending` - `canStart` is not re-checked after the await. -/
def resumeStart (env : Env) (url : String) (σ : SchedState) : SchedState :=
  if σ.suspended.any (fun v => decide (v = url)) then
    { store :=
        match σ.store.list.find? (fun t => decide (t.url = url)) with
        | none => σ.store
        | some _ =>
          { σ.store with
            list := updateFirst (fun t => decide (t.url = url))
              (fun t =>
                let t1 := initTaskResume env t
                { t1 with tasks := markFirstReadyPending t1.tasks })
              σ.store.list }
      suspended := removeFirstStr url σ.suspended }
  else σ

/-- Scheduler runs of the extended machine: the steps of `Step` acting on
the store (each an uninterrupted run), plus the suspension and resumption
of a `start` call at its `initTask` await. -/
inductive SchedReachable : SchedState → Prop where
  | init (dir : String) :
      SchedReachable { store := initState dir, suspended := [] }
  | store {σ : SchedState} {s' : DownloadState} :
      SchedReachable σ → Step σ.store s' →
      SchedReachable { store := s', suspended := σ.suspended }
  | suspend {σ : SchedState} (url : String) :
      SchedReachable σ → SchedReachable (suspendStart url σ)
  | resume {σ : SchedState} (env : Env) (url : String) :
      SchedReachable σ → SchedReachable (resumeStart env url σ)

/-- First response of `http.share.stream(url)` as `createStream` inspects
it: the `content-type` header, and (for HTML challenge pages) the body text
that `streamToText` would produce. -/
structure StreamResp where
  contentType : String
  body : String

/-- Result of `Matcher.parseValidateAjax(html)`: target url, HTTP method
(`type`), and form payload of the embedded validation action. -/
structure AjaxData where
  url : String
  type : String
  data : String

/-- One validation round-trip request as `createStream` issues it:
`http.share(new URL(ajaxData.url, downloadUrl), {method, headers: {referer:
downloadUrl}, form})`. -/
structure ValidateCall where
  url : String
  base : String
  method : String
  referer : String
  form : String
deriving DecidableEq

/-- External collaborators of `createStream`: the streaming transport, the
challenge parser, and the JSON `url` field of the validation response. -/
structure StreamEnv where
  response : String → StreamResp
  parseValidateAjax : String → Option AjaxData
  validateUrl : ValidateCall → String

/-- The validation request `createStream` builds for a challenge page at
`u` whose parsed action is `a`: target `new URL(a.url, u)`, method `a.type`,
Referer `u` (the original challenge url), form `a.data`. -/
def bypassCall (u : String) (a : AjaxData) : ValidateCall :=
  { url := a.url, base := u, method := a.type, referer := u, form := a.data }

/-- Observable events of one `createStream` run: opening a stream, the
fixed `delay(2000)`, and a validation round-trip. -/
inductive StreamEvent where
  | openStream (url : String)
  | delayMs (ms : Nat)
  | validate (call : ValidateCall)
deriving DecidableEq

/-- The rejection message of `createStream` when the challenge page has no
parseable validation action (Download.ts line 312). -/
def challengeParseError : String := "下载验证页面解析出错"

/-- `createStream` (Download.ts lines 291-322), with the unbounded
recursion of the source made structural by a fuel argument (each recursive
call consumes one unit): an HTML first response is parsed for a validation
action; if one is found the resolver waits `delay(2000)`, submits the
validation request with the Referer set to the challenge url, and recurses
on the returned url; otherwise it rejects; a non-HTML response resolves to
the stream.  Returns the event trace and the resolved stream's url. -/
def createStream (env : StreamEnv) : Nat → String → List StreamEvent × Except String String
  | 0, _ => ([], Except.error "recursion fuel exhausted")
  | fuel + 1, downloadUrl =>
    let resp := env.response downloadUrl
    if resp.contentType = "text/html" then
      match env.parseValidateAjax resp.body with
      | some ajaxData =>
        let call : ValidateCall :=
          { url := ajaxData.url
            base := downloadUrl
            method := ajaxData.type
            referer := downloadUrl
            form := ajaxData.data }
        let rest := createStream env fuel (env.validateUrl call)
        (StreamEvent.openStream downloadUrl :: StreamEvent.delayMs 2000 ::
          StreamEvent.validate call :: rest.1, rest.2)
      | none =>
        ([StreamEvent.openStream downloadUrl], Except.error challengeParseError)
    else ([StreamEvent.openStream downloadUrl], Except.ok downloadUrl)

/-- One file of the modelled filesystem: directory, file name, content. -/
structure FSFile where
  dir : String
  name : String
  content : String
deriving DecidableEq

/-- Lexicographic order on character-code lists, the sort key for directory
listings. -/
def lexLeB : List Nat → List Nat → Bool
  | [], _ => true
  | _ :: _, [] => false
  | a :: as, b :: bs =>
    if a < b then true else if b < a then false else lexLeB as bs

/-- Lexicographic by-name order on file names. -/
def strLeB (a b : String) : Bool :=
  lexLeB (a.data.map Char.toNat) (b.data.map Char.toNat)

/-- Insert into a sorted list. -/
def insertSortedBy (le : α → α → Bool) (x : α) : List α → List α
  | [] => [x]
  | y :: ys => if le x y then x :: y :: ys else y :: insertSortedBy le x ys

/-- Insertion sort by a boolean comparator. -/
def sortBy (le : α → α → Bool) : List α → List α
  | [] => []
  | x :: xs => insertSortedBy le x (sortBy le xs)

/-- Modelled from the spec: `readDirEntries` of the filesystem collaborator
(`fs.readdir` is not part of this repository's sources); per the spec the
listing of the temporary directory "must sort deterministically, e.g. by
name", which is also what the source comments assume of `fs.readdir`. -/
def readdirSorted (fs : List FSFile) (d : String) : List String :=
  sortBy strLeB ((fs.filter (fun f => decide (f.dir = d))).map (·.name))

/-- Write (create or overwrite) the file `d/n`. -/
def fsWrite (fs : List FSFile) (d n content : String) : List FSFile :=
  (fs.filter (fun f => !(decide (f.dir = d) && decide (f.name = n)))) ++
    [{ dir := d, name := n, content := content }]

/-- Read the file `d/n`. -/
def fsReadFile (fs : List FSFile) (d n : String) : Option String :=
  (fs.find? (fun f => decide (f.dir = d) && decide (f.name = n))).map (·.content)

/-- `fs.remove(dir)`: drop the directory and everything in it. -/
def fsRemoveDir (fs : List FSFile) (d : String) : List FSFile :=
  fs.filter (fun f => !decide (f.dir = d))

/-- Content of `d/n`, empty for a missing file. -/
def fileContentIn (fs : List FSFile) (d n : String) : String :=
  (fsReadFile fs d n).getD ""

/-- Modelled from the spec: `merge(files, target)` of `common/merge` (not
part of this repository's sources) concatenates the listed files, in list
order, into the single output file `target`. -/
def mergeFiles (fs : List FSFile) (d : String) (names : List String)
    (outDir outName : String) : List FSFile :=
  fsWrite fs outDir outName (String.join (names.map (fileContentIn fs d)))

/-- Strip the trailing `.downloading` marker (`dir.replace(/\.downloading$/, '')`). -/
def dropDownloadingSuffix (s : String) : String :=
  if s.endsWith ".downloading" then s.dropRight 12 else s

/-- `onTaskFinish` (Download.ts lines 126-148) as a filesystem transformer:
file tasks rename the sole downloaded file to `<task.dir>/<task.name>` and
remove the temporary directory; merge-mode folder tasks list the temporary
directory (sorted), concatenate into `<task.dir>/<task.name>` and remove the
temporary directory; non-merge folder tasks rename the temporary directory
in place. -/
def onTaskFinishFS (task : DownloadTask) (fs : List FSFile) : List FSFile :=
  match task.tasks with
  | [] => fs
  | subTask :: _ =>
    match task.urlType with
    | some URLType.file =>
      let moved := fsWrite
        (fs.filter (fun f =>
          !(decide (f.dir = subTask.dir) && decide (f.name = subTask.name))))
        task.dir task.name (fileContentIn fs subTask.dir subTask.name)
      fsRemoveDir moved subTask.dir
    | some URLType.folder =>
      if task.merge then
        let names := readdirSorted fs subTask.dir
        fsRemoveDir (mergeFiles fs subTask.dir names task.dir task.name)
          subTask.dir
      else
        fs.map (fun f =>
          if decide (f.dir = subTask.dir) then
            { f with dir := dropDownloadingSuffix subTask.dir }
          else f)
    | none => fs

/-- The `pending` filter of the `queue` getter. -/
def pendP : DownloadSubTask → Bool :=
  fun st => decide (st.status = TaskStatus.pending)

/-- Number of pending subtasks of one task. -/
def taskPend (t : DownloadTask) : Nat := (t.tasks.filter pendP).length

/-- Status image of `pauseSub`. -/
def pauseStatus : TaskStatus → TaskStatus
  | TaskStatus.ready => TaskStatus.pause
  | TaskStatus.pending => TaskStatus.pause
  | a => a

/-- Status image of the `startAll` per-subtask reset. -/
def resetPauseOnlyStatus : TaskStatus → TaskStatus
  | TaskStatus.pause => TaskStatus.ready
  | a => a

/-- The status-machine edges of the spec:
`ready→pending, pending→finish, pending→pause, pending→fail, pause→ready,
fail→ready`. -/
def allowedEdge : TaskStatus → TaskStatus → Bool
  | TaskStatus.ready, TaskStatus.pending => true
  | TaskStatus.pending, TaskStatus.finish => true
  | TaskStatus.pending, TaskStatus.pause => true
  | TaskStatus.pending, TaskStatus.fail => true
  | TaskStatus.pause, TaskStatus.ready => true
  | TaskStatus.fail, TaskStatus.ready => true
  | _, _ => false

/-- The edges the code actually realises per operation: the spec's edges,
plus `ready→pause` (`pause` also pauses not-yet-started subtasks), plus
`pause→pending` and `fail→pending` (`start` with `reset` chains
`pause/fail→ready` and `ready→pending` inside one call). -/
def allowedEdgeAmended : TaskStatus → TaskStatus → Bool
  | TaskStatus.ready, TaskStatus.pause => true
  | TaskStatus.pause, TaskStatus.pending => true
  | TaskStatus.fail, TaskStatus.pending => true
  | a, b => allowedEdge a b

/-- An operation moving state `s` to `s'` changes subtask statuses only
along the edge set `E` (subtasks are addressed by task url and subtask
url, as the store itself does). -/
def TransitionsWithin (E : TaskStatus → TaskStatus → Bool)
    (s s' : DownloadState) : Prop :=
  ∀ tu su a b, statusAt s tu su = some a → statusAt s' tu su = some b →
    a = b ∨ E a b = true

/-- A fixed sample environment for concrete witnesses: an empty share
listing and identity filename handling. -/
def env0 : Env :=
  { lsShare := fun _ => { name := "", type := URLType.file, list := [] }
    sizeToByte := fun _ => 0
    isSpecificFile := fun _ => false
    restoreFileName := fun n => n }

/-- A sample subtask for concrete runs. -/
def sampleSub (u d n : String) (st : TaskStatus) : DownloadSubTask :=
  { url := u, pwd := none, dir := d, name := n, resolve := 0, status := st,
    size := JSNum.num 1 }

/-- A sample folder task for concrete runs. -/
def sampleTask (u : String) (subs : List DownloadSubTask) : DownloadTask :=
  { url := u, urlType := some URLType.folder, name := "t", dir := "/dl",
    pwd := none, merge := false, tasks := subs }

/-- A sample store state for concrete runs. -/
def sampleState (tasks : List DownloadTask) (sig : List (String × Signal)) :
    DownloadState :=
  { list := tasks, finishList := [], taskSignal := sig, dir := "/dl" }

/-- Scenario for C1: task `"T"` with one `pending` subtask `"S"` whose
transfer is in flight, so the signal map holds the token that `start`
stored under the task's url `"T"`. -/
def c1state : DownloadState :=
  sampleState [sampleTask "T" [sampleSub "S" "/dl/t.downloading" "p1"
    TaskStatus.pending]] [("T", Signal.mk false)]

/-- Scenario for C4: task `"T"` with one `pending` subtask `"S"`, no token
registered yet. -/
def c4state : DownloadState :=
  sampleState [sampleTask "T" [sampleSub "S" "/dl/t.downloading" "p1"
    TaskStatus.pending]] []

/-- Scenario for the C5 counterexample: task `"T"` with one `fail`
subtask `"S"`. -/
def c5state : DownloadState :=
  sampleState [sampleTask "T" [sampleSub "S" "/dl/t.downloading" "p1"
    TaskStatus.fail]] []

/-- Scenarios for the C5 witness: a paused and a failed subtask. -/
def w5pauseState : DownloadState :=
  sampleState [sampleTask "T" [sampleSub "S" "/dl/t.downloading" "p1"
    TaskStatus.pause]] []

def w5failState : DownloadState :=
  sampleState [sampleTask "T" [sampleSub "S" "/dl/t.downloading" "p1"
    TaskStatus.fail]] []

/-- Scenario for the C2 witness: three subtasks already `pending`. -/
def w2state : DownloadState :=
  sampleState [sampleTask "T"
    [sampleSub "a" "/dl/t.downloading" "p1" TaskStatus.pending,
     sampleSub "b" "/dl/t.downloading" "p2" TaskStatus.pending,
     sampleSub "c" "/dl/t.downloading" "p3" TaskStatus.pending]] []

/-- Admission environment for the C2 race: no clash on disk, overwrite
confirmed. -/
def c2addEnv : AddEnv :=
  { isSpecificFile := fun _ => false
    restoreFileName := fun n => n
    existsSync := fun _ => false
    confirmDelete := true }

/-- Admission options for the C2 race: four tasks differing only in url. -/
def c2opts (u : String) : AddOptions :=
  { name := "doc", url := u, pwd := none, merge := false }

/-- Listing environment for the C2 race: every share resolves to a single
one-entry folder. -/
def c2raceEnv : Env :=
  { lsShare := fun t =>
      { name := "t", type := URLType.folder,
        list := [{ url := "sub-" ++ t.url, name := "p1", size := "1",
                   pwd := none }] }
    sizeToByte := fun _ => 1
    isSpecificFile := fun _ => false
    restoreFileName := fun n => n }

/-- The C2 race run: four unresolved tasks `A`-`D` are admitted, `start` is
called on each - all four pass `canStart` at `queue = 0` and suspend at the
`initTask` await - and then the four address resolutions complete one after
another, each resumption marking one subtask `pending` without re-checking
`canStart`. -/
def c2raceState : SchedState :=
  resumeStart c2raceEnv "D" (resumeStart c2raceEnv "C" (resumeStart c2raceEnv
    "B" (resumeStart c2raceEnv "A" (suspendStart "D" (suspendStart "C"
      (suspendStart "B" (suspendStart "A"
        { store := (addTask c2addEnv (c2opts "D")
            (addTask c2addEnv (c2opts "C")
              (addTask c2addEnv (c2opts "B")
                (addTask c2addEnv (c2opts "A")
                  (initState "/dl")).2).2).2).2
          suspended := [] })))))))

/-- Scenario for the C3 counterexample, first part: a `ready` subtask that
`pause` moves straight to `pause`. -/
def c3readyState : DownloadState :=
  sampleState [sampleTask "T" [sampleSub "S" "/dl/t.downloading" "p1"
    TaskStatus.ready]] []

/-- Scenario for the C3 counterexample, second part: a subtask already moved
to `pause` by `pause` while its transfer is still in flight; the fulfilled
transfer path then jumps it to `finish`. -/
def c3pausedState : DownloadState :=
  sampleState [sampleTask "T"
    [sampleSub "S" "/dl/t.downloading" "p1" TaskStatus.pause,
     sampleSub "S2" "/dl/t.downloading" "p2" TaskStatus.ready]] []

/-- Scenario for the C3 witness: a `pending` subtask completing. -/
def w3pendState : DownloadState :=
  sampleState [sampleTask "T"
    [sampleSub "S" "/dl/t.downloading" "p1" TaskStatus.pending,
     sampleSub "S2" "/dl/t.downloading" "p2" TaskStatus.ready]] []

/-- Scenario for the C10 witness: one task whose single subtask is `fail`
(so nothing is runnable without `reset`). -/
def w10state : DownloadState :=
  sampleState [sampleTask "T" [sampleSub "S" "/dl/t.downloading" "p1"
    TaskStatus.fail]] []

/-- Admission environment for the C6 witness. -/
def w6env : AddEnv :=
  { isSpecificFile := fun _ => false
    restoreFileName := fun n => n
    existsSync := fun _ => false
    confirmDelete := true }

/-- Active list for the C6 witness: url `"T"` is already present. -/
def w6state : DownloadState := sampleState [sampleTask "T" []] []

/-- Request for the C6 witness: the duplicate url `"T"`. -/
def w6opts : AddOptions :=
  { name := "doc.pdf", url := "T", pwd := none, merge := false }

/-- Stream environment for the C7 witness: url `"c"` answers with an HTML
challenge page whose validation action leads to `"d"`, which answers with a
binary body; url `"e"` answers with an unparseable HTML page. -/
def w7env : StreamEnv :=
  { response := fun u =>
      if u = "c" then { contentType := "text/html", body := "page" }
      else if u = "e" then { contentType := "text/html", body := "bad" }
      else { contentType := "application/octet-stream", body := "" }
    parseValidateAjax := fun b =>
      if b = "page" then
        some { url := "/file/ajax", type := "post", data := "sign=x" }
      else none
    validateUrl := fun _ => "d" }

/-- Subtask for the C8 counterexample: a known size that the header
handling overwrites with `NaN`. -/
def c8sub : DownloadSubTask :=
  { url := "S", pwd := none, dir := "/dl/t.downloading", name := "p1",
    resolve := 0, status := TaskStatus.pending, size := JSNum.num 5 }

/-- Task for the C9 witness: merge-mode folder task whose parts live in
`/dl/out.downloading`. -/
def w9task : DownloadTask :=
  { url := "T", urlType := some URLType.folder, name := "out", dir := "/dl",
    pwd := none, merge := true,
    tasks := [sampleSub "S" "/dl/out.downloading" "p1" TaskStatus.finish] }

/-- Filesystem for the C9 witness: parts `p1, p2, p3` with contents
`"A", "B", "C"`, deliberately listed out of order. -/
def w9fs : List FSFile :=
  [{ dir := "/dl/out.downloading", name := "p2", content := "B" },
   { dir := "/dl/out.downloading", name := "p1", content := "A" },
   { dir := "/dl/out.downloading", name := "p3", content := "C" }]

/-! Generic lemmas about `updateFirst`, `List.find?` and pending counts. -/

theorem find?_updateFirst_rel {α : Type} (p q : α → Bool) (f : α → α)
    (hq : ∀ x, q (f x) = q x) (l : List α) :
    List.find? q (updateFirst p f l) = List.find? q l ∨
      ∃ a, p a = true ∧ List.find? q l = some a ∧
        List.find? q (updateFirst p f l) = some (f a) := by
  induction l with
  | nil => left; rfl
  | cons x xs ih =>
    by_cases hp : p x = true
    · by_cases hqx : q x = true
      · right
        exact ⟨x, hp, by simp [List.find?_cons_of_pos, hqx],
          by simp [updateFirst, hp, List.find?_cons_of_pos, hq, hqx]⟩
      · left
        simp [updateFirst, hp, List.find?_cons_of_neg, hqx,
          (by simp [hq, hqx] : ¬ q (f x) = true)]
    · simp only [updateFirst, hp, if_neg, Bool.not_eq_true]
      by_cases hqx : q x = true
      · left; simp [List.find?_cons_of_pos, hqx, updateFirst, hp]
      · rcases ih with h | ⟨a, hpa, hfind, hfind'⟩
        · left
          simp [updateFirst, hp, List.find?_cons_of_neg, hqx, h]
        · right
          exact ⟨a, hpa, by simp [List.find?_cons_of_neg, hqx, hfind],
            by simp [updateFirst, hp, List.find?_cons_of_neg, hqx, hfind']⟩

theorem find?_updateFirst_same {α : Type} (q : α → Bool) (f : α → α)
    (hq : ∀ x, q (f x) = q x) (l : List α) :
    List.find? q (updateFirst q f l) = (List.find? q l).map f := by
  induction l with
  | nil => rfl
  | cons x xs ih =>
    by_cases hqx : q x = true
    · simp [updateFirst, hqx, List.find?_cons_of_pos, hq]
    · simp [updateFirst, hqx, List.find?_cons_of_neg,
        (by simpa using hqx : ¬ q x = true), ih]

theorem find?_map_of_inv {α : Type} (q : α → Bool) (f : α → α)
    (hq : ∀ x, q (f x) = q x) (l : List α) :
    List.find? q (l.map f) = (List.find? q l).map f := by
  induction l with
  | nil => rfl
  | cons x xs ih =>
    by_cases hqx : q x = true
    · simp [List.find?_cons_of_pos, hqx, hq]
    · simp only [List.map_cons]
      rw [List.find?_cons_of_neg, List.find?_cons_of_neg, ih]
      · simpa using hqx
      · simp [hq, hqx]

theorem find?_filter_of_imp {α : Type} (p q : α → Bool)
    (h : ∀ x, p x = true → q x = true) (l : List α) :
    List.find? p (l.filter q) = List.find? p l := by
  induction l with
  | nil => rfl
  | cons x xs ih =>
    by_cases hqx : q x = true
    · by_cases hpx : p x = true
      · simp [List.filter_cons, hqx, List.find?_cons_of_pos, hpx]
      · simp only [List.filter_cons, hqx, if_pos]
        rw [List.find?_cons_of_neg, List.find?_cons_of_neg, ih] <;>
          simpa using hpx
    · have hpx : ¬ p x = true := fun hc => hqx (h x hc)
      simp only [List.filter_cons, hqx, if_neg, Bool.not_eq_true]
      rw [ih, List.find?_cons_of_neg]
      simpa using hpx

theorem find?_filter_none {α : Type} (p q : α → Bool)
    (h : ∀ x, q x = true → p x = false) (l : List α) :
    List.find? p (l.filter q) = none := by
  rw [List.find?_eq_none]
  intro x hx
  rw [List.mem_filter] at hx
  simp [h x hx.2]

theorem updateFirst_eq_self {α : Type} (p : α → Bool) (f : α → α) (l : List α)
    (h : ∀ x ∈ l, p x = true → f x = x) :
    updateFirst p f l = l := by
  induction l with
  | nil => rfl
  | cons x xs ih =>
    by_cases hp : p x = true
    · simp [updateFirst, hp, h x (by simp) hp]
    · simp only [updateFirst, hp, if_neg, Bool.not_eq_true]
      rw [ih]
      intro y hy hpy
      exact h y (by simp [hy]) hpy

theorem length_filter_map_le {α : Type} (q : α → Bool) (f : α → α)
    (h : ∀ x, q (f x) = true → q x = true) (l : List α) :
    (List.filter q (l.map f)).length ≤ (List.filter q l).length := by
  induction l with
  | nil => simp
  | cons x xs ih =>
    by_cases hq : q (f x) = true
    · simp only [List.map_cons, List.filter_cons, hq, if_pos, h x hq]
      simpa using ih
    · simp only [List.map_cons, List.filter_cons, hq, if_neg,
        Bool.not_eq_true]
      by_cases hqx : q x = true
      · simp only [hqx, if_pos, List.length_cons]
        omega
      · simpa [hqx] using ih

theorem length_filter_updateFirst_succ {α : Type} (p q : α → Bool) (f : α → α)
    (l : List α) :
    (List.filter q (updateFirst p f l)).length ≤ (List.filter q l).length + 1 := by
  induction l with
  | nil => simp [updateFirst]
  | cons x xs ih =>
    by_cases hp : p x = true
    · simp only [updateFirst, hp, if_pos, List.filter_cons]
      by_cases hq : q (f x) = true <;> by_cases hqx : q x = true <;>
        simp [hq, hqx] <;> omega
    · simp only [updateFirst, hp, if_neg, Bool.not_eq_true, List.filter_cons]
      by_cases hqx : q x = true <;> simp [hqx] <;> omega

theorem length_filter_updateFirst_le {α : Type} (p q : α → Bool) (f : α → α)
    (h : ∀ x, q (f x) = true → q x = true) (l : List α) :
    (List.filter q (updateFirst p f l)).length ≤ (List.filter q l).length := by
  induction l with
  | nil => simp [updateFirst]
  | cons x xs ih =>
    by_cases hp : p x = true
    · simp only [updateFirst, hp, if_pos, List.filter_cons]
      by_cases hq : q (f x) = true
      · simp [hq, h x hq]
      · by_cases hqx : q x = true <;> simp [hq, hqx] <;> omega
    · simp only [updateFirst, hp, if_neg, Bool.not_eq_true, List.filter_cons]
      by_cases hqx : q x = true <;> simp [hqx] <;> [exact ih; exact ih]

theorem length_filter_filter_le {α : Type} (q r : α → Bool) (l : List α) :
    (List.filter q (l.filter r)).length ≤ (List.filter q l).length := by
  induction l with
  | nil => simp
  | cons x xs ih =>
    rw [List.filter_cons, List.filter_cons]
    by_cases hr : r x = true
    · rw [if_pos hr, List.filter_cons]
      by_cases hq : q x = true
      · rw [if_pos hq, if_pos hq, List.length_cons, List.length_cons]
        omega
      · rw [if_neg hq, if_neg hq]
        exact ih
    · rw [if_neg hr]
      by_cases hq : q x = true
      · rw [if_pos hq, List.length_cons]
        omega
      · rw [if_neg hq]
        exact ih

/-! Counting pending subtasks. -/

theorem pend_flatten_sum (l : List DownloadTask) :
    (((l.map (fun t => t.tasks)).flatten).filter pendP).length
      = (l.map taskPend).sum := by
  induction l with
  | nil => rfl
  | cons t ts ih =>
    simp only [List.map_cons, List.flatten_cons, List.filter_append,
      List.length_append, List.sum_cons, ih]
    rfl

theorem queue_eq_sum (s : DownloadState) :
    queue s = (s.list.map taskPend).sum :=
  pend_flatten_sum s.list

theorem sum_map_updateFirst_le {α : Type} (p : α → Bool) (f : α → α)
    (m : α → Nat) (k : Nat) (h : ∀ x, m (f x) ≤ m x + k) (l : List α) :
    ((updateFirst p f l).map m).sum ≤ (l.map m).sum + k := by
  induction l with
  | nil => simp [updateFirst]
  | cons x xs ih =>
    by_cases hp : p x = true
    · simp only [updateFirst, hp, if_pos, List.map_cons, List.sum_cons]
      have := h x
      omega
    · simp only [updateFirst, hp, if_neg, Bool.not_eq_true, List.map_cons,
        List.sum_cons]
      omega

theorem sum_map_filter_le {α : Type} (q : α → Bool) (m : α → Nat)
    (l : List α) :
    ((l.filter q).map m).sum ≤ (l.map m).sum := by
  induction l with
  | nil => simp
  | cons x xs ih =>
    rw [List.filter_cons]
    by_cases hq : q x = true
    · rw [if_pos hq]
      simp only [List.map_cons, List.sum_cons]
      omega
    · rw [if_neg hq]
      simp only [List.map_cons, List.sum_cons]
      omega

theorem pendP_pauseSub (st : DownloadSubTask) :
    pendP (pauseSub st) = true → pendP st = true := by
  intro h
  by_cases hc : st.status = TaskStatus.ready ∨ st.status = TaskStatus.pending
  · simp [pauseSub, hc, pendP] at h
  · simpa [pauseSub, hc] using h

theorem pendP_resetPauseFail (st : DownloadSubTask) :
    pendP (resetPauseFail st) = true → pendP st = true := by
  intro h
  by_cases hc : st.status = TaskStatus.pause ∨ st.status = TaskStatus.fail
  · simp [resetPauseFail, hc, pendP] at h
  · simpa [resetPauseFail, hc] using h

theorem pendP_resetPauseOnly (st : DownloadSubTask) :
    pendP (if st.status = TaskStatus.pause then
      { st with status := TaskStatus.ready } else st) = true →
    pendP st = true := by
  intro h
  by_cases hc : st.status = TaskStatus.pause
  · simp [hc, pendP] at h
  · simpa [hc] using h

theorem length_filter_map_zero {α β : Type} (q : β → Bool) (g : α → β)
    (h : ∀ v, q (g v) = false) (l : List α) :
    (List.filter q (l.map g)).length = 0 := by
  induction l with
  | nil => rfl
  | cons x xs ih => simp [List.filter_cons, h, ih]

theorem taskPend_initTask (env : Env) (t : DownloadTask)
    (h : t.tasks.isEmpty = true) : taskPend (initTask env t) = 0 := by
  unfold initTask
  rw [h]
  simp only [Bool.not_true, Bool.false_eq_true, if_false, taskPend]
  exact length_filter_map_zero _ _ (fun v => by simp [pendP]) _

theorem taskPend_startTaskUpdate (env : Env) (r : Bool) (t : DownloadTask) :
    taskPend (startTaskUpdate env r t) ≤ taskPend t + 1 := by
  unfold startTaskUpdate
  have hmark : ∀ (l : List DownloadSubTask),
      (List.filter pendP (markFirstReadyPending l)).length
        ≤ (List.filter pendP l).length + 1 :=
    fun l => length_filter_updateFirst_succ _ _ _ l
  by_cases he : t.tasks.isEmpty = true
  · rw [if_pos he]
    have h0 := taskPend_initTask env t he
    have := hmark (initTask env t).tasks
    simp only [taskPend] at *
    omega
  · rw [if_neg he]
    by_cases hr : r = true
    · rw [if_pos hr]
      have h1 : (List.filter pendP (t.tasks.map resetPauseFail)).length
          ≤ (t.tasks.filter pendP).length :=
        length_filter_map_le _ _ pendP_resetPauseFail _
      have := hmark (t.tasks.map resetPauseFail)
      simp only [taskPend] at *
      omega
    · rw [if_neg hr]
      have := hmark t.tasks
      simp only [taskPend] at *
      omega

theorem queue_startStep_le (env : Env) (url : String) (r : Bool)
    (s : DownloadState) (h : queue s ≤ 3) :
    queue (startStep env url r s) ≤ 3 := by
  unfold startStep
  cases hfind : s.list.find? (fun t => decide (t.url = url)) with
  | none => exact h
  | some t =>
    simp only []
    by_cases hc : canStart s = true
    · rw [if_pos hc]
      have hlt : queue s < 3 := by simpa [canStart] using hc
      have hb := sum_map_updateFirst_le (fun t => decide (t.url = url))
        (startTaskUpdate env r) taskPend 1
        (fun x => taskPend_startTaskUpdate env r x) s.list
      rw [queue_eq_sum] at *
      simp only [] at hb ⊢
      omega
    · rw [if_neg hc]
      exact h

theorem queue_pauseStep_le (url : String) (s : DownloadState) :
    queue (pauseStep url s) ≤ queue s := by
  unfold pauseStep
  cases hfind : s.list.find? (fun t => decide (t.url = url)) with
  | none => exact Nat.le_refl _
  | some t =>
    simp only []
    have hb := sum_map_updateFirst_le (fun t' => decide (t'.url = url))
      (fun t' => { t' with tasks := t'.tasks.map pauseSub }) taskPend 0
      (fun x => by
        simpa [taskPend] using
          length_filter_map_le pendP pauseSub pendP_pauseSub x.tasks) s.list
    rw [queue_eq_sum, queue_eq_sum]
    simpa using hb

theorem queue_removeStep_le (url : String) (s : DownloadState) :
    queue (removeStep url s) ≤ queue s := by
  unfold removeStep
  rw [queue_eq_sum, queue_eq_sum]
  exact sum_map_filter_le _ _ _

theorem queue_updateSubAt_le (tu su : String)
    (f : DownloadSubTask → DownloadSubTask) (s : DownloadState)
    (h : ∀ st, pendP (f st) = true → pendP st = true) :
    queue (updateSubAt tu su f s) ≤ queue s := by
  unfold updateSubAt
  rw [queue_eq_sum, queue_eq_sum]
  refine le_trans (le_of_le_of_eq
    (sum_map_updateFirst_le _ _ taskPend 0 (fun x => ?_) s.list) (by omega))
    (Nat.le_refl _)
  have := length_filter_updateFirst_le
    (fun st => decide (st.url = su)) pendP f h x.tasks
  simp only [taskPend]
  omega

theorem queue_updateSubAt_eq (tu su : String)
    (f : DownloadSubTask → DownloadSubTask) (s : DownloadState)
    (h : ∀ st, pendP (f st) = pendP st) :
    queue (updateSubAt tu su f s) ≤ queue s :=
  queue_updateSubAt_le tu su f s (fun st hst => (h st) ▸ hst)

theorem foldl_inv {β α : Type} (P : β → Prop) (g : β → α → β)
    (h : ∀ s a, P s → P (g s a)) :
    ∀ (l : List α) (s : β), P s → P (l.foldl g s) := by
  intro l
  induction l with
  | nil => intro s hs; exact hs
  | cons x xs ih => intro s hs; exact ih (g s x) (h s x hs)

theorem queue_pauseAllStep_le (s : DownloadState) :
    queue (pauseAllStep s) ≤ queue s := by
  unfold pauseAllStep
  have : ∀ (us : List String) (s0 : DownloadState),
      queue (us.foldl (fun acc u => pauseStep u acc) s0) ≤ queue s0 := by
    intro us
    induction us with
    | nil => intro s0; exact Nat.le_refl _
    | cons u us ih =>
      intro s0
      exact le_trans (ih (pauseStep u s0)) (queue_pauseStep_le u s0)
  exact this _ s

theorem queue_listMapTask_le (u : String)
    (g : DownloadSubTask → DownloadSubTask) (s : DownloadState)
    (hg : ∀ st, pendP (g st) = true → pendP st = true) :
    queue ({ s with
      list := updateFirst (fun t => decide (t.url = u))
        (fun t => { t with tasks := t.tasks.map g }) s.list }) ≤ queue s := by
  rw [queue_eq_sum, queue_eq_sum]
  have hb := sum_map_updateFirst_le (fun t => decide (t.url = u))
    (fun t => { t with tasks := t.tasks.map g }) taskPend 0
    (fun x => by
      simpa [taskPend] using length_filter_map_le pendP g hg x.tasks) s.list
  simpa using hb

theorem queue_resetPausesOf_le (u : String) (s : DownloadState) :
    queue (resetPausesOf u s) ≤ queue s :=
  queue_listMapTask_le u _ s pendP_resetPauseOnly

theorem queue_startAllStep_le3 (env : Env) (s : DownloadState)
    (h : queue s ≤ 3) : queue (startAllStep env s) ≤ 3 := by
  unfold startAllStep
  refine foldl_inv (fun s0 => queue s0 ≤ 3) _ ?_ _ s h
  intro s0 u hs0
  apply queue_startStep_le
  exact le_trans (queue_resetPausesOf_le u s0) hs0

theorem queue_addTask (env : AddEnv) (o : AddOptions) (s : DownloadState) :
    queue (addTask env o s).2 = queue s := by
  unfold addTask pushAndCheckList
  by_cases h1 : (s.list.find? (fun v => decide (v.url = o.url))).isSome = true
  · simp only [h1, if_pos]
  · simp only [h1, if_neg, Bool.not_eq_true]
    by_cases h2 : (env.existsSync (env.restoreFileName
        (pathJoin s.dir (if env.isSpecificFile o.name then
          env.restoreFileName o.name else o.name))) && !env.confirmDelete) = true
    · simp only [h2, if_pos]
    · simp only [h2, if_neg, Bool.not_eq_true]
      rw [queue_eq_sum, queue_eq_sum]
      simp [taskPend]

theorem queue_transferMark_le (tu su : String) (s : DownloadState) :
    queue (transferMark tu su s) ≤ queue s := by
  unfold transferMark
  exact queue_updateSubAt_le tu su _ s (fun st hst => by simp [pendP] at hst)

theorem queue_transferFinishDispatch_le3 (env : Env) (tu : String)
    (s : DownloadState) (h : queue s ≤ 3) :
    queue (transferFinishDispatch env tu s) ≤ 3 := by
  unfold transferFinishDispatch
  cases hf : s.list.find? (fun t => decide (t.url = tu)) with
  | none => exact h
  | some t =>
    simp only []
    by_cases hall : t.tasks.all
        (fun st => decide (st.status = TaskStatus.finish)) = true
    · rw [if_pos hall]
      calc queue _ ≤ queue s := queue_removeStep_le tu s
        _ ≤ 3 := h
    · rw [if_neg hall]
      exact queue_startStep_le env tu false s h

theorem queue_transferSuccess_le3 (env : Env) (tu su : String)
    (s : DownloadState) (h : queue s ≤ 3) :
    queue (transferSuccess env tu su s) ≤ 3 := by
  unfold transferSuccess
  cases hf : s.list.find? (fun t => decide (t.url = tu)) with
  | none => exact h
  | some t =>
    exact queue_transferFinishDispatch_le3 env tu _
      (le_trans (queue_transferMark_le tu su s) h)

theorem queue_transferCatch_le (tu su : String) (s : DownloadState) :
    queue (transferCatch tu su s) ≤ queue s := by
  unfold transferCatch
  exact queue_updateSubAt_le tu su _ s (fun st hst => by
    by_cases hb : (match sigLookup s.taskSignal tu with
      | some sig => sig.aborted
      | none => false) = true <;> simp [pendP, hb] at hst)

theorem queue_step {s s' : DownloadState} (h : Step s s')
    (hq : queue s ≤ 3) : queue s' ≤ 3 := by
  cases h with
  | start env url reset s => exact queue_startStep_le env url reset s hq
  | startAll env s => exact queue_startAllStep_le3 env s hq
  | pause url s => exact le_trans (queue_pauseStep_le url s) hq
  | pauseAll s => exact le_trans (queue_pauseAllStep_le s) hq
  | remove url s => exact le_trans (queue_removeStep_le url s) hq
  | removeAll s => simpa [queue, getList, removeAllStep] using Nat.zero_le 3
  | removeAllFinish s => exact hq
  | add env o s => exact le_of_le_of_eq (le_of_eq (queue_addTask env o s)) rfl |>.trans hq
  | attach taskUrl s => exact hq
  | headers tu su hh s =>
    exact le_trans (queue_updateSubAt_eq tu su _ s (fun st => by
      by_cases hd : hh.contentDisposition.isSome = true <;>
        simp [applyHeaders, hd, pendP])) hq
  | progress tu su n s =>
    exact le_trans (queue_updateSubAt_eq tu su _ s (fun st => by
      simp [pendP])) hq
  | success env tu su s => exact queue_transferSuccess_le3 env tu su s hq
  | tcatch tu su s => exact le_trans (queue_transferCatch_le tu su s) hq

/-! Claim theorems. -/

/-- C2: the 3-pending cap does NOT hold of the program.  `start` checks
`canStart` (line 233) before the `await this.initTask(task)` of line 236
and marks the subtask `pending` (line 249) only after it, without
re-checking; so four `start` calls on unresolved tasks can all pass the
guard at `queue = 0`, suspend, and then each resumption pushes one more
subtask to `pending`: the state `c2raceState`, reachable in the machine
that renders this suspension, has 4 subtasks `pending` at once.  The guard
itself is sound when it runs - the third conjunct: a `start` attempt made
with 3 subtasks already `pending` changes no state. -/
theorem C2_capacity_race :
    SchedReachable c2raceState ∧ 3 < queue c2raceState.store ∧
    startStep env0 "T" false w2state = w2state := by
  refine ⟨?_, by decide, by decide⟩
  exact SchedReachable.resume c2raceEnv "D" (SchedReachable.resume c2raceEnv
    "C" (SchedReachable.resume c2raceEnv "B" (SchedReachable.resume c2raceEnv
      "A" (SchedReachable.suspend "D" (SchedReachable.suspend "C"
        (SchedReachable.suspend "B" (SchedReachable.suspend "A"
          (SchedReachable.store
            (SchedReachable.store
              (SchedReachable.store
                (SchedReachable.store (SchedReachable.init "/dl")
                  (Step.add c2addEnv (c2opts "A") (initState "/dl")))
                (Step.add c2addEnv (c2opts "B") _))
              (Step.add c2addEnv (c2opts "C") _))
            (Step.add c2addEnv (c2opts "D") _)))))))))

/-- C1 is a code bug; this theorem evaluates the model at the failing
input: on `c1state` (task `"T"`, pending subtask `"S"` mid-transfer, token
stored under `"T"`), `pause("T")` marks the subtask `pause` but leaves the
signal map untouched (its `abortTask` looks up the subtask's url `"S"` and
finds nothing), so the token is still present and unaborted afterwards; when
the still-running transfer later fails, the catch branch reads
`taskSignal["T"].signal.aborted = false` and overwrites the status with
`fail`. -/
theorem C1_pause_divergence :
    statusAt (pauseStep "T" c1state) "T" "S" = some TaskStatus.pause ∧
    (pauseStep "T" c1state).taskSignal = [("T", Signal.mk false)] ∧
    statusAt (transferCatch "T" "S" (pauseStep "T" c1state)) "T" "S"
      = some TaskStatus.fail := by decide

/-- C4 is a code bug; this theorem evaluates the model at the failing
input: during the transfer of subtask `"S"` of task `"T"` the token is
stored under the task's url `"T"` (Download.ts line 271), so a lookup under
the subtask's url `"S"` finds nothing, `abortTask` for the subtask is a
no-op, and the `finish-task` cleanup (`delete taskSignal[subtask.url]`)
leaves the entry in place. -/
theorem C4_signal_key_divergence :
    (attachSignal "T" c4state).taskSignal = [("T", Signal.mk false)] ∧
    sigLookup (attachSignal "T" c4state).taskSignal "S" = none ∧
    abortTaskSig (attachSignal "T" c4state).taskSignal "S"
      = (attachSignal "T" c4state).taskSignal ∧
    sigErase (attachSignal "T" c4state).taskSignal "S"
      = (attachSignal "T" c4state).taskSignal := by decide

/-- Counterexample for C5: `startAll` does not resume failed subtasks - on
`c5state` (task `"T"` with one `fail` subtask `"S"`) the subtask is still
`fail` afterwards, not `ready` (nor `pending`). -/
theorem C5_counterexample :
    statusAt c5state "T" "S" = some TaskStatus.fail ∧
    statusAt (startAllStep env0 c5state) "T" "S" = some TaskStatus.fail ∧
    ¬ (statusAt (startAllStep env0 c5state) "T" "S" = some TaskStatus.ready ∨
       statusAt (startAllStep env0 c5state) "T" "S"
         = some TaskStatus.pending) := by decide

/-- Counterexample for C8: with a `content-disposition` but no
`content-length`, the header handling does not leave `size` unchanged - it
overwrites it with `Number(undefined) = NaN`. -/
theorem C8_counterexample :
    (applyHeaders (RespHeaders.mk none (some "attachment")) c8sub).size
      = JSNum.nan ∧
    c8sub.size = JSNum.num 5 ∧ JSNum.nan ≠ JSNum.num 5 := by decide

theorem updateFirst_eq_self_of_find? {α : Type} (p : α → Bool) (f : α → α)
    (l : List α) (h : ∀ x, List.find? p l = some x → f x = x) :
    updateFirst p f l = l := by
  induction l with
  | nil => rfl
  | cons x xs ih =>
    by_cases hp : p x = true
    · simp [updateFirst, hp, h x (by simp [List.find?_cons_of_pos, hp])]
    · simp only [updateFirst, hp, if_neg, Bool.not_eq_true]
      rw [ih]
      intro y hy
      exact h y (by
        rw [List.find?_cons_of_neg _ (by simpa using hp)]
        exact hy)

/-- C8 amended: the subtask's `size` is updated exactly when the response
carries a `content-disposition`: it becomes `Number(content-length)`, i.e.
the header's value when present and `NaN` when absent; when
`content-disposition` is absent the subtask is left unchanged. -/
theorem C8_size_header_amended (h : RespHeaders) (st : DownloadSubTask) :
    (h.contentDisposition.isSome = true →
      (applyHeaders h st).size = numOf h.contentLength ∧
      ∀ n, h.contentLength = some n → (applyHeaders h st).size = JSNum.num n) ∧
    (h.contentDisposition = none → applyHeaders h st = st) := by
  constructor
  · intro hd
    constructor
    · simp [applyHeaders, hd]
    · intro n hn
      simp [applyHeaders, hd, hn, numOf]
  · intro hd
    simp [applyHeaders, hd]

/-- Witness for C8 at concrete inputs: with both headers present the size
becomes the content-length; without `content-disposition` nothing changes. -/
theorem C8_size_header_amended_witness :
    (applyHeaders (RespHeaders.mk (some 7) (some "attachment")) c8sub).size
      = JSNum.num 7 ∧
    applyHeaders (RespHeaders.mk (some 7) none) c8sub = c8sub :=
  ⟨((C8_size_header_amended (RespHeaders.mk (some 7) (some "attachment"))
      c8sub).1 rfl).2 7 rfl,
   (C8_size_header_amended (RespHeaders.mk (some 7) none) c8sub).2 rfl⟩

/-- C6: `addTask` with a url already present in the active list rejects with
the duplicate-task error and returns the state unchanged (no task appended,
no task mutated, nothing else touched). -/
theorem C6_duplicate_reject (env : AddEnv) (o : AddOptions) (s : DownloadState)
    (h : (s.list.find? (fun v => decide (v.url = o.url))).isSome = true) :
    addTask env o s = (Except.error "文件已存在下载列表!", s) := by
  simp [addTask, pushAndCheckList, h]

/-- Witness for C6 at concrete inputs: adding url `"T"` to a list already
containing `"T"` rejects and leaves the state as it was. -/
theorem C6_duplicate_reject_witness :
    addTask w6env w6opts w6state
      = (Except.error "文件已存在下载列表!", w6state) :=
  C6_duplicate_reject w6env w6opts w6state (by decide)

/-- C10: `start(url)` with a url not in the active list, or on a task that
has subtasks none of which is `ready` (with `reset = false`), returns
without modifying any task, any subtask, or the signal map: the resulting
state is the input state. -/
theorem C10_start_noop (env : Env) (s : DownloadState) (url : String) :
    (s.list.find? (fun t => decide (t.url = url)) = none →
      startStep env url false s = s) ∧
    (∀ t, s.list.find? (fun t' => decide (t'.url = url)) = some t →
      t.tasks ≠ [] →
      (∀ st ∈ t.tasks, ¬ st.status = TaskStatus.ready) →
      startStep env url false s = s) := by
  constructor
  · intro h
    unfold startStep
    rw [h]
  · intro t hfind hne hnr
    unfold startStep
    rw [hfind]
    by_cases hc : canStart s = true
    · rw [if_pos hc]
      have hfix : startTaskUpdate env false t = t := by
        have he : ¬ (t.tasks.isEmpty = true) := by
          simpa [List.isEmpty_iff] using hne
        have hmark : markFirstReadyPending t.tasks = t.tasks := by
          unfold markFirstReadyPending
          apply updateFirst_eq_self
          intro x hx hpx
          exact absurd (of_decide_eq_true hpx) (hnr x hx)
        simp [startTaskUpdate, he, hmark]
      have hlist : updateFirst (fun t' => decide (t'.url = url))
          (startTaskUpdate env false) s.list = s.list := by
        apply updateFirst_eq_self_of_find?
        intro x hxf
        rw [hfind] at hxf
        cases hxf
        exact hfix
      rw [hlist]
    · rw [if_neg hc]

/-- Witness for C10 at concrete inputs: starting an absent url `"X"` and
starting task `"T"` whose only subtask is `fail` both leave the state
untouched. -/
theorem C10_start_noop_witness :
    startStep env0 "X" false w10state = w10state ∧
    startStep env0 "T" false w10state = w10state :=
  ⟨(C10_start_noop env0 w10state "X").1 (by decide),
   (C10_start_noop env0 w10state "T").2
     (sampleTask "T" [sampleSub "S" "/dl/t.downloading" "p1" TaskStatus.fail])
     (by decide) (by decide) (by decide)⟩

theorem createStream_succ_html (env : StreamEnv) (fuel : Nat) (u body : String)
    (a : AjaxData)
    (h1 : env.response u = { contentType := "text/html", body := body })
    (h2 : env.parseValidateAjax body = some a) :
    createStream env (fuel + 1) u =
      (StreamEvent.openStream u :: StreamEvent.delayMs 2000 ::
        StreamEvent.validate (bypassCall u a) ::
        (createStream env fuel (env.validateUrl (bypassCall u a))).1,
       (createStream env fuel (env.validateUrl (bypassCall u a))).2) := by
  simp [createStream, h1, h2, bypassCall]

theorem createStream_succ_binary (env : StreamEnv) (fuel : Nat) (u : String)
    (h : ¬ (env.response u).contentType = "text/html") :
    createStream env (fuel + 1) u =
      ([StreamEvent.openStream u], Except.ok u) := by
  simp [createStream, h]

theorem createStream_succ_noparse (env : StreamEnv) (fuel : Nat)
    (u body : String)
    (h1 : env.response u = { contentType := "text/html", body := body })
    (h2 : env.parseValidateAjax body = none) :
    createStream env (fuel + 1) u =
      ([StreamEvent.openStream u], Except.error challengeParseError) := by
  simp [createStream, h1, h2]

/-- C7: when the first response is HTML with a parseable validation form,
the resolver waits the fixed 2000ms delay, submits the validation request
with the Referer set to the original challenge url, and retries
stream-opening with the returned url exactly once when the second response
is binary (exactly two `openStream` events, one `validate` event); when the
HTML has no parseable action the attempt fails with the challenge-parse
error. -/
theorem C7_challenge_bypass (env : StreamEnv) (fuel : Nat)
    (u0 u1 body : String) (a : AjaxData)
    (h1 : env.response u0 = { contentType := "text/html", body := body })
    (h2 : env.parseValidateAjax body = some a)
    (h3 : env.validateUrl (bypassCall u0 a) = u1)
    (h4 : ¬ (env.response u1).contentType = "text/html") :
    createStream env (fuel + 2) u0 =
      ([StreamEvent.openStream u0, StreamEvent.delayMs 2000,
        StreamEvent.validate (bypassCall u0 a), StreamEvent.openStream u1],
       Except.ok u1) ∧
    (∀ (u b2 : String) (fl : Nat),
      env.response u = { contentType := "text/html", body := b2 } →
      env.parseValidateAjax b2 = none →
      createStream env (fl + 1) u =
        ([StreamEvent.openStream u], Except.error challengeParseError)) := by
  constructor
  · have hh := createStream_succ_html env (fuel + 1) u0 body a h1 h2
    rw [hh, h3, createStream_succ_binary env fuel u1 h4]
  · intro u b2 fl hr hp
    exact createStream_succ_noparse env fl u b2 hr hp

/-- Witness for C7 at concrete inputs: with `w7env`, resolving `"c"`
produces exactly the open-delay-validate-open trace ending on the binary
url `"d"`, and resolving the unparseable page at `"e"` rejects with the
challenge-parse error. -/
theorem C7_challenge_bypass_witness :
    createStream w7env 2 "c" =
      ([StreamEvent.openStream "c", StreamEvent.delayMs 2000,
        StreamEvent.validate (bypassCall "c" (AjaxData.mk "/file/ajax" "post"
          "sign=x")), StreamEvent.openStream "d"], Except.ok "d") ∧
    createStream w7env 1 "e" =
      ([StreamEvent.openStream "e"], Except.error challengeParseError) :=
  ⟨(C7_challenge_bypass w7env 0 "c" "d" "page"
      (AjaxData.mk "/file/ajax" "post" "sign=x") rfl rfl rfl (by decide)).1,
   (C7_challenge_bypass w7env 0 "c" "d" "page"
      (AjaxData.mk "/file/ajax" "post" "sign=x") rfl rfl rfl (by decide)).2
     "e" "bad" 0 rfl rfl⟩

theorem lexLeB_total (as : List Nat) : ∀ bs,
    lexLeB as bs = true ∨ lexLeB bs as = true := by
  induction as with
  | nil => intro bs; left; cases bs <;> rfl
  | cons a as ih =>
    intro bs
    cases bs with
    | nil => right; rfl
    | cons b bs =>
      rcases Nat.lt_trichotomy a b with h | h | h
      · left; simp [lexLeB, h]
      · subst h
        rcases ih bs with hl | hr
        · left; simp [lexLeB, Nat.lt_irrefl, hl]
        · right; simp [lexLeB, Nat.lt_irrefl, hr]
      · right; simp [lexLeB, h]

theorem lexLeB_trans (as : List Nat) : ∀ bs cs,
    lexLeB as bs = true → lexLeB bs cs = true → lexLeB as cs = true := by
  induction as with
  | nil => intro bs cs _ _; cases cs <;> rfl
  | cons a as ih =>
    intro bs cs h1 h2
    cases bs with
    | nil => simp [lexLeB] at h1
    | cons b bs =>
      cases cs with
      | nil => simp [lexLeB] at h2
      | cons c cs =>
        simp only [lexLeB] at h1 h2 ⊢
        by_cases hab : a < b
        · by_cases hbc : b < c
          · simp [Nat.lt_trans hab hbc]
          · by_cases hcb : c < b
            · simp [hbc, hcb] at h2
            · have hbc' : b = c := by omega
              subst hbc'
              simp [hab]
        · by_cases hba : b < a
          · simp [hab, hba] at h1
          · have hab' : a = b := by omega
            subst hab'
            simp only [Nat.lt_irrefl, if_false] at h1
            by_cases hac : a < c
            · simp [hac]
            · by_cases hca : c < a
              · simp [hac, hca] at h2
              · have hac' : a = c := by omega
                subst hac'
                simp only [Nat.lt_irrefl, if_false] at h2 ⊢
                exact ih bs cs h1 h2

theorem strLeB_total (a b : String) : strLeB a b = true ∨ strLeB b a = true :=
  lexLeB_total _ _

theorem strLeB_trans (a b c : String) :
    strLeB a b = true → strLeB b c = true → strLeB a c = true :=
  fun h1 h2 => lexLeB_trans _ _ _ h1 h2

theorem mem_insertSortedBy {α : Type} (le : α → α → Bool) (x : α)
    (l : List α) (z : α) :
    z ∈ insertSortedBy le x l ↔ z = x ∨ z ∈ l := by
  induction l with
  | nil => simp [insertSortedBy]
  | cons y ys ih =>
    by_cases h : le x y = true
    · simp [insertSortedBy, h, List.mem_cons]
    · simp only [insertSortedBy, h, if_neg, Bool.not_eq_true, List.mem_cons,
        ih]
      tauto

theorem pairwise_insertSortedBy {α : Type} (le : α → α → Bool)
    (htot : ∀ a b, le a b = true ∨ le b a = true)
    (htrans : ∀ a b c, le a b = true → le b c = true → le a c = true)
    (x : α) (l : List α)
    (hl : List.Pairwise (fun a b => le a b = true) l) :
    List.Pairwise (fun a b => le a b = true) (insertSortedBy le x l) := by
  induction l with
  | nil => simp [insertSortedBy]
  | cons y ys ih =>
    cases hl with
    | cons hy hys =>
      by_cases h : le x y = true
      · simp only [insertSortedBy, h, if_pos]
        constructor
        · intro z hz
          rcases List.mem_cons.mp hz with rfl | hz'
          · exact h
          · exact htrans x y z h (hy z hz')
        · exact List.Pairwise.cons hy hys
      · simp only [insertSortedBy, h, if_neg, Bool.not_eq_true]
        constructor
        · intro z hz
          rcases (mem_insertSortedBy le x ys z).mp hz with rfl | hz'
          · rcases htot z y with h' | h'
            · exact absurd h' h
            · exact h'
          · exact hy z hz'
        · exact ih hys

theorem pairwise_sortBy {α : Type} (le : α → α → Bool)
    (htot : ∀ a b, le a b = true ∨ le b a = true)
    (htrans : ∀ a b c, le a b = true → le b c = true → le a c = true)
    (l : List α) :
    List.Pairwise (fun a b => le a b = true) (sortBy le l) := by
  induction l with
  | nil => simp [sortBy]
  | cons x xs ih => exact pairwise_insertSortedBy le htot htrans x _ ih

theorem find?_append_none {α : Type} (p : α → Bool) (l1 l2 : List α)
    (h : List.find? p l1 = none) :
    List.find? p (l1 ++ l2) = List.find? p l2 := by
  induction l1 with
  | nil => rfl
  | cons x xs ih =>
    by_cases hp : p x = true
    · rw [List.find?_cons_of_pos _ hp] at h
      exact absurd h (by simp)
    · rw [List.find?_cons_of_neg _ (by simpa using hp)] at h
      rw [List.cons_append, List.find?_cons_of_neg _ (by simpa using hp)]
      exact ih h

theorem filter_of_filter_not {α : Type} (p q : α → Bool)
    (h : ∀ x, q x = true → p x = false) (l : List α) :
    List.filter p (l.filter q) = [] := by
  induction l with
  | nil => rfl
  | cons x xs ih =>
    by_cases hq : q x = true
    · rw [List.filter_cons, if_pos hq, List.filter_cons, h x hq]
      simpa using ih
    · rw [List.filter_cons, if_neg (by simpa using hq)]
      exact ih

theorem fsReadFile_fsRemoveDir_ne (fs : List FSFile) (dd d n : String)
    (h : ¬ d = dd) :
    fsReadFile (fsRemoveDir fs dd) d n = fsReadFile fs d n := by
  unfold fsReadFile fsRemoveDir
  rw [find?_filter_of_imp]
  intro x hx
  simp only [Bool.and_eq_true, decide_eq_true_eq] at hx
  simp only [Bool.not_eq_true', decide_eq_false_iff_not]
  rw [hx.1]
  exact h

theorem fsReadFile_fsWrite (fs : List FSFile) (d n c : String) :
    fsReadFile (fsWrite fs d n c) d n = some c := by
  unfold fsReadFile fsWrite
  rw [find?_append_none]
  · simp
  · apply find?_filter_none
    intro x hx
    simp only [Bool.not_eq_true'] at hx
    exact hx

/-- C9 (post-processing is spec-modelled: `merge` and the filesystem are
collaborators outside `src/`): for a folder task in merge mode, the
post-processor lists the temporary directory sorted by name, writes the
concatenation of the parts' contents in that order to
`<task.dir>/<task.name>`, and the temporary directory is empty afterwards. -/
theorem C9_merge_concat (task : DownloadTask) (sub : DownloadSubTask)
    (rest : List DownloadSubTask) (fs : List FSFile)
    (h1 : task.tasks = sub :: rest)
    (h2 : task.urlType = some URLType.folder)
    (h3 : task.merge = true)
    (h4 : ¬ task.dir = sub.dir) :
    List.Pairwise (fun a b => strLeB a b = true) (readdirSorted fs sub.dir) ∧
    fsReadFile (onTaskFinishFS task fs) task.dir task.name =
      some (String.join ((readdirSorted fs sub.dir).map
        (fileContentIn fs sub.dir))) ∧
    readdirSorted (onTaskFinishFS task fs) sub.dir = [] := by
  have key : onTaskFinishFS task fs =
      fsRemoveDir (mergeFiles fs sub.dir (readdirSorted fs sub.dir)
        task.dir task.name) sub.dir := by
    unfold onTaskFinishFS
    rw [h1, h2, h3]
    rfl
  refine ⟨?_, ?_, ?_⟩
  · unfold readdirSorted
    exact pairwise_sortBy strLeB strLeB_total strLeB_trans _
  · rw [key, fsReadFile_fsRemoveDir_ne _ _ _ _ h4]
    unfold mergeFiles
    exact fsReadFile_fsWrite _ _ _ _
  · rw [key]
    unfold readdirSorted fsRemoveDir
    rw [filter_of_filter_not]
    · rfl
    · intro x hx
      simpa using hx

/-- Witness for C9 at concrete inputs: parts `p1, p2, p3` with contents
`"A", "B", "C"` (listed out of order in the filesystem) merge into
`/dl/out` with content `"ABC"`, and the temporary directory is empty
afterwards. -/
theorem C9_merge_concat_witness :
    fsReadFile (onTaskFinishFS w9task w9fs) "/dl" "out" = some "ABC" ∧
    readdirSorted (onTaskFinishFS w9task w9fs) "/dl/out.downloading" = [] := by
  have h := C9_merge_concat w9task
    (sampleSub "S" "/dl/out.downloading" "p1" TaskStatus.finish) [] w9fs
    rfl rfl rfl (by decide)
  exact ⟨h.2.1.trans (by decide), h.2.2⟩

/-! Status-machine lemmas. -/

theorem pauseSub_url (st : DownloadSubTask) : (pauseSub st).url = st.url := by
  unfold pauseSub
  split <;> rfl

theorem pauseSub_status (st : DownloadSubTask) :
    (pauseSub st).status = pauseStatus st.status := by
  rcases st with ⟨u, p, d, n, r, stat, sz⟩
  cases stat <;> rfl

theorem resetPauseOnly_url (st : DownloadSubTask) :
    ((if st.status = TaskStatus.pause then
      { st with status := TaskStatus.ready } else st)).url = st.url := by
  split <;> rfl

theorem resetPauseOnly_status (st : DownloadSubTask) :
    ((if st.status = TaskStatus.pause then
      { st with status := TaskStatus.ready } else st)).status
      = resetPauseOnlyStatus st.status := by
  rcases st with ⟨u, p, d, n, r, stat, sz⟩
  cases stat <;> rfl

theorem resetPauseFail_url (st : DownloadSubTask) :
    (resetPauseFail st).url = st.url := by
  unfold resetPauseFail
  split <;> rfl

theorem initTask_url (env : Env) (t : DownloadTask) :
    (initTask env t).url = t.url := by
  unfold initTask
  split <;> rfl

theorem startTaskUpdate_url (env : Env) (r : Bool) (t : DownloadTask) :
    (startTaskUpdate env r t).url = t.url := by
  unfold startTaskUpdate
  split
  · exact initTask_url env t
  · split <;> rfl

theorem statusIn_updateFirst_mapTasks (url : String)
    (f : DownloadSubTask → DownloadSubTask) (g : TaskStatus → TaskStatus)
    (hurl : ∀ st, (f st).url = st.url)
    (hstat : ∀ st, (f st).status = g st.status)
    (l : List DownloadTask) (tu su : String) :
    statusIn (updateFirst (fun t' => decide (t'.url = url))
      (fun t' => { t' with tasks := t'.tasks.map f }) l) tu su
        = statusIn l tu su ∨
    statusIn (updateFirst (fun t' => decide (t'.url = url))
      (fun t' => { t' with tasks := t'.tasks.map f }) l) tu su
        = (statusIn l tu su).map g := by
  rcases find?_updateFirst_rel (fun t' => decide (t'.url = url))
      (fun t' => decide (t'.url = tu))
      (fun t' => { t' with tasks := t'.tasks.map f }) (fun _ => rfl) l with
    h | ⟨t0, hp0, hf, hf'⟩
  · left
    unfold statusIn
    rw [h]
  · right
    unfold statusIn
    rw [hf, hf']
    simp only []
    rw [find?_map_of_inv (fun st => decide (st.url = su)) f
      (fun st => by simp [hurl st])]
    cases hx : t0.tasks.find? (fun st => decide (st.url = su)) with
    | none => rfl
    | some x => simp [hstat x]

theorem statusIn_updateFirst_mapTasks_same (tu : String)
    (f : DownloadSubTask → DownloadSubTask) (g : TaskStatus → TaskStatus)
    (hurl : ∀ st, (f st).url = st.url)
    (hstat : ∀ st, (f st).status = g st.status)
    (l : List DownloadTask) (su : String) :
    statusIn (updateFirst (fun t' => decide (t'.url = tu))
      (fun t' => { t' with tasks := t'.tasks.map f }) l) tu su
        = (statusIn l tu su).map g := by
  unfold statusIn
  rw [find?_updateFirst_same (fun t' => decide (t'.url = tu))
    (fun t' => { t' with tasks := t'.tasks.map f }) (fun _ => rfl) l]
  cases hf : l.find? (fun t' => decide (t'.url = tu)) with
  | none => rfl
  | some t0 =>
    simp only [Option.map_some']
    rw [find?_map_of_inv (fun st => decide (st.url = su)) f
      (fun st => by simp [hurl st])]
    cases hx : t0.tasks.find? (fun st => decide (st.url = su)) with
    | none => rfl
    | some x => simp [hstat x]

theorem statusIn_filter_ne (u : String) (l : List DownloadTask) (tu su : String)
    (h : ¬ tu = u) :
    statusIn (l.filter (fun t => !decide (t.url = u))) tu su
      = statusIn l tu su := by
  unfold statusIn
  rw [find?_filter_of_imp]
  intro x hx
  have hx' : x.url = tu := of_decide_eq_true hx
  simp only [Bool.not_eq_true', decide_eq_false_iff_not]
  rw [hx']
  exact h

theorem statusIn_filter_eq (u : String) (l : List DownloadTask) (su : String) :
    statusIn (l.filter (fun t => !decide (t.url = u))) u su = none := by
  unfold statusIn
  rw [find?_filter_none]
  intro x hx
  simp only [Bool.not_eq_true', decide_eq_false_iff_not] at hx
  simpa using hx

theorem isEmpty_false_of_find?_some {α : Type} (p : α → Bool) (x : α)
    (l : List α) (h : List.find? p l = some x) : l.isEmpty = false := by
  cases l with
  | nil => simp [List.find?] at h
  | cons y ys => rfl

theorem find?_markFirstReadyPending (su : String) (l : List DownloadSubTask)
    (x : DownloadSubTask)
    (hx : List.find? (fun st => decide (st.url = su)) l = some x) :
    List.find? (fun st => decide (st.url = su)) (markFirstReadyPending l)
      = some x ∨
    (x.status = TaskStatus.ready ∧
     List.find? (fun st => decide (st.url = su)) (markFirstReadyPending l)
       = some { x with status := TaskStatus.pending }) := by
  unfold markFirstReadyPending
  rcases find?_updateFirst_rel
      (fun st => decide (st.status = TaskStatus.ready))
      (fun st => decide (st.url = su))
      (fun st => { st with status := TaskStatus.pending }) (fun _ => rfl) l
    with h | ⟨y, hpy, hfy, hfy'⟩
  · left
    rw [h]
    exact hx
  · right
    have hyx : y = x := by
      rw [hfy] at hx
      exact Option.some_inj.mp hx
    subst hyx
    exact ⟨of_decide_eq_true hpy, hfy'⟩

theorem find?_resetMap (su : String) (l : List DownloadSubTask)
    (x : DownloadSubTask)
    (hx : List.find? (fun st => decide (st.url = su)) l = some x) :
    List.find? (fun st => decide (st.url = su)) (l.map resetPauseFail)
      = some (resetPauseFail x) := by
  rw [find?_map_of_inv (fun st => decide (st.url = su)) resetPauseFail
    (fun st => by simp [resetPauseFail_url st]), hx]
  rfl

theorem find?_startTaskUpdate_noreset (env : Env) (t0 : DownloadTask)
    (su : String) (x : DownloadSubTask)
    (hx : List.find? (fun st => decide (st.url = su)) t0.tasks = some x) :
    List.find? (fun st => decide (st.url = su))
      (startTaskUpdate env false t0).tasks = some x ∨
    (x.status = TaskStatus.ready ∧
     List.find? (fun st => decide (st.url = su))
       (startTaskUpdate env false t0).tasks
         = some { x with status := TaskStatus.pending }) := by
  have he := isEmpty_false_of_find?_some _ _ _ hx
  have h1 := find?_markFirstReadyPending su t0.tasks x hx
  simpa [startTaskUpdate, he] using h1

theorem resetPauseFail_status_cases (x : DownloadSubTask) :
    (resetPauseFail x).status = x.status ∨
    ((x.status = TaskStatus.pause ∨ x.status = TaskStatus.fail) ∧
      (resetPauseFail x).status = TaskStatus.ready) := by
  rcases x with ⟨u, p, d, n, r, stat, sz⟩
  cases stat <;> simp [resetPauseFail]

theorem find?_startTaskUpdate_reset (env : Env) (t0 : DownloadTask)
    (su : String) (x : DownloadSubTask)
    (hx : List.find? (fun st => decide (st.url = su)) t0.tasks = some x) :
    ∃ y, List.find? (fun st => decide (st.url = su))
        (startTaskUpdate env true t0).tasks = some y ∧
      (y.status = x.status ∨
       ((x.status = TaskStatus.pause ∨ x.status = TaskStatus.fail) ∧
        (y.status = TaskStatus.ready ∨ y.status = TaskStatus.pending)) ∨
       (x.status = TaskStatus.ready ∧ y.status = TaskStatus.pending)) := by
  have he := isEmpty_false_of_find?_some _ _ _ hx
  have hmid := find?_resetMap su t0.tasks x hx
  rcases find?_markFirstReadyPending su (t0.tasks.map resetPauseFail)
      (resetPauseFail x) hmid with h | ⟨hr, h⟩
  · refine ⟨resetPauseFail x, by simpa [startTaskUpdate, he] using h, ?_⟩
    rcases resetPauseFail_status_cases x with h2 | ⟨h2, h3⟩
    · exact Or.inl h2
    · exact Or.inr (Or.inl ⟨h2, Or.inl h3⟩)
  · refine ⟨{ resetPauseFail x with status := TaskStatus.pending },
      by simpa [startTaskUpdate, he] using h, ?_⟩
    rcases resetPauseFail_status_cases x with h2 | ⟨h2, h3⟩
    · rw [h2] at hr
      exact Or.inr (Or.inr ⟨hr, rfl⟩)
    · exact Or.inr (Or.inl ⟨h2, Or.inr rfl⟩)

theorem find?_startTaskUpdate (env : Env) (r : Bool) (t0 : DownloadTask)
    (su : String) (x : DownloadSubTask)
    (hx : List.find? (fun st => decide (st.url = su)) t0.tasks = some x) :
    ∃ y, List.find? (fun st => decide (st.url = su))
        (startTaskUpdate env r t0).tasks = some y ∧
      (y.status = x.status ∨
       ((x.status = TaskStatus.pause ∨ x.status = TaskStatus.fail) ∧
        (y.status = TaskStatus.ready ∨ y.status = TaskStatus.pending)) ∨
       (x.status = TaskStatus.ready ∧ y.status = TaskStatus.pending)) := by
  cases r with
  | true => exact find?_startTaskUpdate_reset env t0 su x hx
  | false =>
    rcases find?_startTaskUpdate_noreset env t0 su x hx with h | ⟨hr, h⟩
    · exact ⟨x, h, Or.inl rfl⟩
    · exact ⟨{ x with status := TaskStatus.pending }, h,
        Or.inr (Or.inr ⟨hr, rfl⟩)⟩

theorem statusIn_startList (env : Env) (url : String) (r : Bool)
    (l : List DownloadTask) (tu su : String) (a : TaskStatus)
    (h : statusIn l tu su = some a) :
    ∃ b, statusIn (updateFirst (fun t => decide (t.url = url))
        (startTaskUpdate env r) l) tu su = some b ∧
      (b = a ∨
       ((a = TaskStatus.pause ∨ a = TaskStatus.fail) ∧
        (b = TaskStatus.ready ∨ b = TaskStatus.pending)) ∨
       (a = TaskStatus.ready ∧ b = TaskStatus.pending)) := by
  rcases find?_updateFirst_rel (fun t => decide (t.url = url))
      (fun t => decide (t.url = tu)) (startTaskUpdate env r)
      (fun t => by simp [startTaskUpdate_url env r t]) l with
    hEq | ⟨t0, hp0, hf, hf'⟩
  · refine ⟨a, ?_, Or.inl rfl⟩
    unfold statusIn at h ⊢
    rw [hEq]
    exact h
  · unfold statusIn at h
    rw [hf] at h
    simp only [] at h
    cases hfx : t0.tasks.find? (fun st => decide (st.url = su)) with
    | none => rw [hfx] at h; simp at h
    | some x =>
      rw [hfx] at h
      simp only [Option.map_some'] at h
      have hax : x.status = a := Option.some_inj.mp h
      rcases find?_startTaskUpdate env r t0 su x hfx with ⟨y, hy, hrel⟩
      refine ⟨y.status, ?_, ?_⟩
      · unfold statusIn
        rw [hf']
        simp only []
        rw [hy]
        rfl
      · rw [← hax]
        exact hrel

theorem statusIn_startList_noreset (env : Env) (url : String)
    (l : List DownloadTask) (tu su : String) (a : TaskStatus)
    (h : statusIn l tu su = some a) :
    statusIn (updateFirst (fun t => decide (t.url = url))
      (startTaskUpdate env false) l) tu su = some a ∨
    (a = TaskStatus.ready ∧
     statusIn (updateFirst (fun t => decide (t.url = url))
       (startTaskUpdate env false) l) tu su = some TaskStatus.pending) := by
  rcases find?_updateFirst_rel (fun t => decide (t.url = url))
      (fun t => decide (t.url = tu)) (startTaskUpdate env false)
      (fun t => by simp [startTaskUpdate_url env false t]) l with
    hEq | ⟨t0, hp0, hf, hf'⟩
  · left
    unfold statusIn at h ⊢
    rw [hEq]
    exact h
  · unfold statusIn at h
    rw [hf] at h
    simp only [] at h
    cases hfx : t0.tasks.find? (fun st => decide (st.url = su)) with
    | none => rw [hfx] at h; simp at h
    | some x =>
      rw [hfx] at h
      simp only [Option.map_some'] at h
      have hax : x.status = a := Option.some_inj.mp h
      rcases find?_startTaskUpdate_noreset env t0 su x hfx with h1 | ⟨hr, h1⟩
      · left
        unfold statusIn
        rw [hf']
        simp only []
        rw [h1]
        simpa using hax
      · right
        refine ⟨by rw [← hax]; exact hr, ?_⟩
        unfold statusIn
        rw [hf']
        simp only []
        rw [h1]
        rfl

theorem statusIn_updateSub_rel (tu su : String)
    (f : DownloadSubTask → DownloadSubTask) (g : TaskStatus → TaskStatus)
    (hurl : ∀ st, (f st).url = st.url)
    (hstat : ∀ st, (f st).status = g st.status)
    (l : List DownloadTask) (tu' su' : String) :
    statusIn (updateFirst (fun t => decide (t.url = tu))
      (fun t => { t with
        tasks := updateFirst (fun st => decide (st.url = su)) f t.tasks })
      l) tu' su' = statusIn l tu' su' ∨
    (tu' = tu ∧ su' = su ∧
     statusIn (updateFirst (fun t => decide (t.url = tu))
       (fun t => { t with
         tasks := updateFirst (fun st => decide (st.url = su)) f t.tasks })
       l) tu' su' = (statusIn l tu su).map g) := by
  rcases find?_updateFirst_rel (fun t => decide (t.url = tu))
      (fun t => decide (t.url = tu'))
      (fun t => { t with
        tasks := updateFirst (fun st => decide (st.url = su)) f t.tasks })
      (fun _ => rfl) l with h | ⟨t0, hp0, hf, hf'⟩
  · left
    unfold statusIn
    rw [h]
  · have hq1 := List.find?_some hf
    have htu : tu' = tu :=
      (of_decide_eq_true hq1).symm.trans (of_decide_eq_true hp0)
    subst htu
    rcases find?_updateFirst_rel (fun st => decide (st.url = su))
        (fun st => decide (st.url = su')) f
        (fun st => by simp [hurl st]) t0.tasks with h2 | ⟨x, hpx, hfx, hfx'⟩
    · left
      unfold statusIn
      rw [hf, hf']
      simp only []
      rw [h2]
    · have hq2 := List.find?_some hfx
      have hsu : su' = su :=
        (of_decide_eq_true hq2).symm.trans (of_decide_eq_true hpx)
      subst hsu
      right
      refine ⟨rfl, rfl, ?_⟩
      unfold statusIn
      rw [hf, hf']
      simp only []
      rw [hfx, hfx']
      simp [hstat x]

theorem statusAt_pauseStep_rel (url : String) (s : DownloadState)
    (tu su : String) :
    statusAt (pauseStep url s) tu su = statusAt s tu su ∨
    statusAt (pauseStep url s) tu su = (statusAt s tu su).map pauseStatus := by
  unfold pauseStep
  cases hf : s.list.find? (fun t => decide (t.url = url)) with
  | none => left; rfl
  | some t =>
    exact statusIn_updateFirst_mapTasks url pauseSub pauseStatus pauseSub_url
      pauseSub_status s.list tu su

theorem pauseStatus_idem (a : TaskStatus) :
    pauseStatus (pauseStatus a) = pauseStatus a := by
  cases a <;> rfl

theorem statusAt_pauseAll_rel (s : DownloadState) (tu su : String) :
    statusAt (pauseAllStep s) tu su = statusAt s tu su ∨
    statusAt (pauseAllStep s) tu su = (statusAt s tu su).map pauseStatus := by
  unfold pauseAllStep
  refine foldl_inv (fun s0 =>
    statusAt s0 tu su = statusAt s tu su ∨
    statusAt s0 tu su = (statusAt s tu su).map pauseStatus) _ ?_ _ s
    (Or.inl rfl)
  intro s0 u hs0
  rcases statusAt_pauseStep_rel u s0 tu su with h1 | h1
  · rw [h1]
    exact hs0
  · rcases hs0 with h2 | h2
    · right
      rw [h1, h2]
    · right
      rw [h1, h2]
      cases hv : statusAt s tu su <;> simp [pauseStatus_idem]

theorem statusAt_startStep_noreset (env : Env) (url : String)
    (s : DownloadState) (tu su : String) (a : TaskStatus)
    (h : statusAt s tu su = some a) :
    statusAt (startStep env url false s) tu su = some a ∨
    (a = TaskStatus.ready ∧
     statusAt (startStep env url false s) tu su = some TaskStatus.pending) := by
  unfold startStep
  cases hf : s.list.find? (fun t => decide (t.url = url)) with
  | none => left; exact h
  | some t =>
    by_cases hc : canStart s = true
    · rw [if_pos hc]
      exact statusIn_startList_noreset env url s.list tu su a h
    · rw [if_neg hc]
      left
      exact h

theorem statusAt_startStep_rel (env : Env) (url : String) (r : Bool)
    (s : DownloadState) (tu su : String) (a : TaskStatus)
    (h : statusAt s tu su = some a) :
    ∃ b, statusAt (startStep env url r s) tu su = some b ∧
      (b = a ∨
       ((a = TaskStatus.pause ∨ a = TaskStatus.fail) ∧
        (b = TaskStatus.ready ∨ b = TaskStatus.pending)) ∨
       (a = TaskStatus.ready ∧ b = TaskStatus.pending)) := by
  unfold startStep
  cases hf : s.list.find? (fun t => decide (t.url = url)) with
  | none => exact ⟨a, h, Or.inl rfl⟩
  | some t =>
    by_cases hc : canStart s = true
    · rw [if_pos hc]
      exact statusIn_startList env url r s.list tu su a h
    · rw [if_neg hc]
      exact ⟨a, h, Or.inl rfl⟩

theorem statusAt_resetPausesOf_rel (u : String) (s : DownloadState)
    (tu su : String) :
    statusAt (resetPausesOf u s) tu su = statusAt s tu su ∨
    statusAt (resetPausesOf u s) tu su
      = (statusAt s tu su).map resetPauseOnlyStatus :=
  statusIn_updateFirst_mapTasks u _ resetPauseOnlyStatus resetPauseOnly_url
    resetPauseOnly_status s.list tu su

theorem statusAt_resetPausesOf_same (tu : String) (s : DownloadState)
    (su : String) :
    statusAt (resetPausesOf tu s) tu su
      = (statusAt s tu su).map resetPauseOnlyStatus :=
  statusIn_updateFirst_mapTasks_same tu _ resetPauseOnlyStatus
    resetPauseOnly_url resetPauseOnly_status s.list su

theorem statusAt_startAllIter (env : Env) (u : String) (s : DownloadState)
    (tu su : String) (c : TaskStatus) (h : statusAt s tu su = some c) :
    ∃ d, statusAt (startStep env u false (resetPausesOf u s)) tu su = some d ∧
      (d = c ∨
       (c = TaskStatus.pause ∧ (d = TaskStatus.ready ∨ d = TaskStatus.pending)) ∨
       (c = TaskStatus.ready ∧ d = TaskStatus.pending)) := by
  rcases statusAt_resetPausesOf_rel u s tu su with h1 | h1
  · have hmid : statusAt (resetPausesOf u s) tu su = some c := by
      rw [h1]
      exact h
    rcases statusAt_startStep_noreset env u (resetPausesOf u s) tu su c hmid
      with h2 | ⟨hr, h2⟩
    · exact ⟨c, h2, Or.inl rfl⟩
    · exact ⟨TaskStatus.pending, h2, Or.inr (Or.inr ⟨hr, rfl⟩)⟩
  · have hmid : statusAt (resetPausesOf u s) tu su
        = some (resetPauseOnlyStatus c) := by
      rw [h1, h]
      rfl
    rcases statusAt_startStep_noreset env u (resetPausesOf u s) tu su
        (resetPauseOnlyStatus c) hmid with h2 | ⟨hr, h2⟩
    · refine ⟨resetPauseOnlyStatus c, h2, ?_⟩
      cases c <;> simp [resetPauseOnlyStatus]
    · refine ⟨TaskStatus.pending, h2, ?_⟩
      cases c <;> simp [resetPauseOnlyStatus] at hr ⊢

theorem statusAt_startAll_rel (env : Env) (s : DownloadState)
    (tu su : String) (a : TaskStatus) (h : statusAt s tu su = some a) :
    ∃ b, statusAt (startAllStep env s) tu su = some b ∧
      (b = a ∨
       (a = TaskStatus.pause ∧ (b = TaskStatus.ready ∨ b = TaskStatus.pending)) ∨
       (a = TaskStatus.ready ∧ b = TaskStatus.pending)) := by
  have comp : ∀ (a c d : TaskStatus),
      (c = a ∨ (a = TaskStatus.pause ∧ (c = TaskStatus.ready ∨ c = TaskStatus.pending)) ∨
        (a = TaskStatus.ready ∧ c = TaskStatus.pending)) →
      (d = c ∨ (c = TaskStatus.pause ∧ (d = TaskStatus.ready ∨ d = TaskStatus.pending)) ∨
        (c = TaskStatus.ready ∧ d = TaskStatus.pending)) →
      (d = a ∨ (a = TaskStatus.pause ∧ (d = TaskStatus.ready ∨ d = TaskStatus.pending)) ∨
        (a = TaskStatus.ready ∧ d = TaskStatus.pending)) := by decide
  unfold startAllStep
  refine foldl_inv (fun s0 => ∃ c, statusAt s0 tu su = some c ∧
    (c = a ∨ (a = TaskStatus.pause ∧ (c = TaskStatus.ready ∨ c = TaskStatus.pending)) ∨
     (a = TaskStatus.ready ∧ c = TaskStatus.pending))) _ ?_ _ s
    ⟨a, h, Or.inl rfl⟩
  rintro s0 u ⟨c, hc, hrel⟩
  rcases statusAt_startAllIter env u s0 tu su c hc with ⟨d, hd, hstep⟩
  exact ⟨d, hd, comp a c d hrel hstep⟩

theorem statusAt_startAll_fail (env : Env) (s : DownloadState) (tu su : String)
    (h : statusAt s tu su = some TaskStatus.fail) :
    statusAt (startAllStep env s) tu su = some TaskStatus.fail := by
  rcases statusAt_startAll_rel env s tu su TaskStatus.fail h with ⟨b, hb, hrel⟩
  have : b = TaskStatus.fail := by
    rcases hrel with h1 | ⟨h1, _⟩ | ⟨h1, _⟩
    · exact h1
    · exact absurd h1 (by decide)
    · exact absurd h1 (by decide)
  rw [← this]
  exact hb

theorem statusAt_startAll_pause (env : Env) (s : DownloadState)
    (tu su : String) (h : statusAt s tu su = some TaskStatus.pause) :
    statusAt (startAllStep env s) tu su = some TaskStatus.ready ∨
    statusAt (startAllStep env s) tu su = some TaskStatus.pending := by
  have hmem : tu ∈ s.list.map (fun t => t.url) := by
    unfold statusAt statusIn at h
    cases hf : s.list.find? (fun t => decide (t.url = tu)) with
    | none => rw [hf] at h; simp at h
    | some t =>
      have h1 := List.find?_some hf
      exact List.mem_map.mpr
        ⟨t, List.mem_of_find?_eq_some hf, of_decide_eq_true h1⟩
  obtain ⟨l1, l2, hsplit⟩ := List.append_of_mem hmem
  unfold startAllStep
  rw [hsplit, List.foldl_append, List.foldl_cons]
  have stage1 : statusAt (List.foldl
      (fun acc u => startStep env u false (resetPausesOf u acc)) s l1) tu su
        = some TaskStatus.pause ∨
      statusAt (List.foldl
        (fun acc u => startStep env u false (resetPausesOf u acc)) s l1) tu su
          = some TaskStatus.ready ∨
      statusAt (List.foldl
        (fun acc u => startStep env u false (resetPausesOf u acc)) s l1) tu su
          = some TaskStatus.pending := by
    refine foldl_inv (fun s0 =>
      statusAt s0 tu su = some TaskStatus.pause ∨
      statusAt s0 tu su = some TaskStatus.ready ∨
      statusAt s0 tu su = some TaskStatus.pending) _ ?_ _ s (Or.inl h)
    intro s0 u hs0
    have hclose : ∀ (c d : TaskStatus),
        (c = TaskStatus.pause ∨ c = TaskStatus.ready ∨ c = TaskStatus.pending) →
        (d = c ∨ (c = TaskStatus.pause ∧ (d = TaskStatus.ready ∨ d = TaskStatus.pending)) ∨
          (c = TaskStatus.ready ∧ d = TaskStatus.pending)) →
        (d = TaskStatus.pause ∨ d = TaskStatus.ready ∨ d = TaskStatus.pending) := by
      decide
    rcases hs0 with h0 | h0 | h0 <;>
    · rcases statusAt_startAllIter env u s0 tu su _ h0 with ⟨d, hd, hstep⟩
      have := hclose _ d (by simp) hstep
      rcases this with h1 | h1 | h1 <;> rw [h1] at hd <;> simp [hd]
  have stage2 : ∀ (acc : DownloadState),
      (statusAt acc tu su = some TaskStatus.pause ∨
       statusAt acc tu su = some TaskStatus.ready ∨
       statusAt acc tu su = some TaskStatus.pending) →
      (statusAt (startStep env tu false (resetPausesOf tu acc)) tu su
          = some TaskStatus.ready ∨
       statusAt (startStep env tu false (resetPausesOf tu acc)) tu su
          = some TaskStatus.pending) := by
    intro acc hacc
    have hmid := statusAt_resetPausesOf_same tu acc su
    have hmid2 : statusAt (resetPausesOf tu acc) tu su = some TaskStatus.ready ∨
        statusAt (resetPausesOf tu acc) tu su = some TaskStatus.pending := by
      rcases hacc with h0 | h0 | h0 <;> rw [h0] at hmid <;> simp [hmid] <;>
        simp [resetPauseOnlyStatus] at hmid ⊢ <;> simp [hmid]
    rcases hmid2 with h0 | h0
    · rcases statusAt_startStep_noreset env tu (resetPausesOf tu acc) tu su
          TaskStatus.ready h0 with h1 | ⟨_, h1⟩
      · left; exact h1
      · right; exact h1
    · rcases statusAt_startStep_noreset env tu (resetPausesOf tu acc) tu su
          TaskStatus.pending h0 with h1 | ⟨hr, h1⟩
      · right; exact h1
      · exact absurd hr (by decide)
  have stage3 : ∀ (us : List String) (acc : DownloadState),
      (statusAt acc tu su = some TaskStatus.ready ∨
       statusAt acc tu su = some TaskStatus.pending) →
      (statusAt (List.foldl
          (fun acc u => startStep env u false (resetPausesOf u acc)) acc us)
            tu su = some TaskStatus.ready ∨
       statusAt (List.foldl
          (fun acc u => startStep env u false (resetPausesOf u acc)) acc us)
            tu su = some TaskStatus.pending) := by
    intro us
    refine foldl_inv (fun s0 =>
      statusAt s0 tu su = some TaskStatus.ready ∨
      statusAt s0 tu su = some TaskStatus.pending) _ ?_ us
    intro s0 u hs0
    have hclose : ∀ (c d : TaskStatus),
        (c = TaskStatus.ready ∨ c = TaskStatus.pending) →
        (d = c ∨ (c = TaskStatus.pause ∧ (d = TaskStatus.ready ∨ d = TaskStatus.pending)) ∨
          (c = TaskStatus.ready ∧ d = TaskStatus.pending)) →
        (d = TaskStatus.ready ∨ d = TaskStatus.pending) := by decide
    rcases hs0 with h0 | h0 <;>
    · rcases statusAt_startAllIter env u s0 tu su _ h0 with ⟨d, hd, hstep⟩
      have := hclose _ d (by simp) hstep
      rcases this with h1 | h1 <;> rw [h1] at hd <;> simp [hd]
  exact stage3 l2 _ (stage2 _ stage1)

theorem statusAt_removeStep_ne (u : String) (s : DownloadState)
    (tu su : String) (h : ¬ tu = u) :
    statusAt (removeStep u s) tu su = statusAt s tu su :=
  statusIn_filter_ne u s.list tu su h

theorem statusAt_removeStep_eq (u : String) (s : DownloadState) (su : String) :
    statusAt (removeStep u s) u su = none :=
  statusIn_filter_eq u s.list su

theorem statusAt_transferMark_rel (tu su : String) (s : DownloadState)
    (tu' su' : String) :
    statusAt (transferMark tu su s) tu' su' = statusAt s tu' su' ∨
    (tu' = tu ∧ su' = su ∧
     statusAt (transferMark tu su s) tu' su'
       = (statusAt s tu su).map (fun _ => TaskStatus.finish)) :=
  statusIn_updateSub_rel tu su
    (fun st => { st with status := TaskStatus.finish })
    (fun _ => TaskStatus.finish) (fun _ => rfl) (fun _ => rfl) s.list tu' su'

theorem statusAt_transferCatch_rel (tu su : String) (s : DownloadState)
    (tu' su' : String) :
    statusAt (transferCatch tu su s) tu' su' = statusAt s tu' su' ∨
    (tu' = tu ∧ su' = su ∧
     (statusAt (transferCatch tu su s) tu' su'
        = (statusAt s tu su).map (fun _ => TaskStatus.pause) ∨
      statusAt (transferCatch tu su s) tu' su'
        = (statusAt s tu su).map (fun _ => TaskStatus.fail))) := by
  rcases statusIn_updateSub_rel tu su
      (fun st => { st with status := if (match sigLookup s.taskSignal tu with
        | some sig => sig.aborted
        | none => false) then TaskStatus.pause else TaskStatus.fail })
      (fun _ => if (match sigLookup s.taskSignal tu with
        | some sig => sig.aborted
        | none => false) then TaskStatus.pause else TaskStatus.fail)
      (fun _ => rfl) (fun _ => rfl) s.list tu' su' with h | ⟨h1, h2, h3⟩
  · left
    exact h
  · right
    refine ⟨h1, h2, ?_⟩
    by_cases hab : (match sigLookup s.taskSignal tu with
        | some sig => sig.aborted
        | none => false) = true
    · left
      exact h3.trans (by simp [statusAt, hab])
    · right
      exact h3.trans (by simp [statusAt, hab])

theorem statusAt_transferFinishDispatch (env : Env) (tu : String)
    (s2 : DownloadState) (tu' su' : String) (c : TaskStatus)
    (h : statusAt s2 tu' su' = some c) :
    statusAt (transferFinishDispatch env tu s2) tu' su' = some c ∨
    statusAt (transferFinishDispatch env tu s2) tu' su' = none ∨
    (c = TaskStatus.ready ∧
     statusAt (transferFinishDispatch env tu s2) tu' su'
       = some TaskStatus.pending) := by
  unfold transferFinishDispatch
  cases hf : s2.list.find? (fun t => decide (t.url = tu)) with
  | none => left; exact h
  | some t =>
    simp only []
    by_cases hall : (t.tasks.all
        (fun st => decide (st.status = TaskStatus.finish))) = true
    · rw [if_pos hall]
      by_cases htu : tu' = tu
      · subst htu
        right
        left
        exact statusAt_removeStep_eq tu' s2 su'
      · left
        exact (statusAt_removeStep_ne tu s2 tu' su' htu).trans h
    · rw [if_neg hall]
      rcases statusAt_startStep_noreset env tu s2 tu' su' c h
        with h1 | ⟨hc2, h1⟩
      · left
        exact h1
      · right
        right
        exact ⟨hc2, h1⟩

theorem transitions_transferSuccess (env : Env) (tu su : String)
    (s : DownloadState) (hp : statusAt s tu su = some TaskStatus.pending) :
    TransitionsWithin allowedEdgeAmended s (transferSuccess env tu su s) := by
  intro tu' su' a b ha hb
  have hform : transferSuccess env tu su s = s ∨
      transferSuccess env tu su s
        = transferFinishDispatch env tu (transferMark tu su s) := by
    unfold transferSuccess
    cases hf : s.list.find? (fun t => decide (t.url = tu)) with
    | none => left; rfl
    | some t => right; rfl
  rcases hform with hEq | hEq
  · rw [hEq, ha] at hb
    exact Or.inl (Option.some_inj.mp hb)
  · rw [hEq] at hb
    rcases statusAt_transferMark_rel tu su s tu' su' with hm | ⟨htu, hsu, hm⟩
    · have hmid : statusAt (transferMark tu su s) tu' su' = some a := by
        rw [hm]
        exact ha
      rcases statusAt_transferFinishDispatch env tu _ tu' su' a hmid
        with h1 | h1 | ⟨hc2, h1⟩
      · rw [h1] at hb
        exact Or.inl (Option.some_inj.mp hb)
      · rw [h1] at hb
        exact absurd hb (by simp)
      · rw [h1] at hb
        have hbp := Option.some_inj.mp hb
        subst hc2
        rw [← hbp]
        right
        decide
    · subst htu
      subst hsu
      have ha2 : a = TaskStatus.pending :=
        Option.some_inj.mp (ha.symm.trans hp)
      have hmid : statusAt (transferMark tu' su' s) tu' su'
          = some TaskStatus.finish := by
        rw [hm, hp]
        rfl
      rcases statusAt_transferFinishDispatch env tu' _ tu' su'
          TaskStatus.finish hmid with h1 | h1 | ⟨hc2, h1⟩
      · rw [h1] at hb
        have := Option.some_inj.mp hb
        subst ha2
        rw [← this]
        right
        decide
      · rw [h1] at hb
        exact absurd hb (by simp)
      · exact absurd hc2 (by decide)

theorem transitions_transferCatch (tu su : String) (s : DownloadState)
    (hp : statusAt s tu su = some TaskStatus.pending) :
    TransitionsWithin allowedEdgeAmended s (transferCatch tu su s) := by
  intro tu' su' a b ha hb
  rcases statusAt_transferCatch_rel tu su s tu' su' with h | ⟨htu, hsu, h⟩
  · rw [h, ha] at hb
    exact Or.inl (Option.some_inj.mp hb)
  · subst htu
    subst hsu
    have ha2 : a = TaskStatus.pending :=
      Option.some_inj.mp (ha.symm.trans hp)
    subst ha2
    rcases h with h | h <;>
    · rw [h, hp] at hb
      simp only [Option.map_some'] at hb
      rw [← Option.some_inj.mp hb]
      right
      decide

theorem transitions_pauseStep (url : String) (s : DownloadState) :
    TransitionsWithin allowedEdgeAmended s (pauseStep url s) := by
  intro tu su a b ha hb
  rcases statusAt_pauseStep_rel url s tu su with h | h
  · rw [h, ha] at hb
    exact Or.inl (Option.some_inj.mp hb)
  · rw [h, ha] at hb
    simp only [Option.map_some'] at hb
    rw [← Option.some_inj.mp hb]
    cases a <;> decide

theorem transitions_pauseAll (s : DownloadState) :
    TransitionsWithin allowedEdgeAmended s (pauseAllStep s) := by
  intro tu su a b ha hb
  rcases statusAt_pauseAll_rel s tu su with h | h
  · rw [h, ha] at hb
    exact Or.inl (Option.some_inj.mp hb)
  · rw [h, ha] at hb
    simp only [Option.map_some'] at hb
    rw [← Option.some_inj.mp hb]
    cases a <;> decide

theorem transitions_startStep (env : Env) (url : String) (reset : Bool)
    (s : DownloadState) :
    TransitionsWithin allowedEdgeAmended s (startStep env url reset s) := by
  intro tu su a b ha hb
  rcases statusAt_startStep_rel env url reset s tu su a ha with ⟨b', hb', hrel⟩
  have hbb : b' = b := Option.some_inj.mp (hb'.symm.trans hb)
  subst hbb
  rcases hrel with rfl | ⟨h1, h2⟩ | ⟨h1, h2⟩
  · exact Or.inl rfl
  · rcases h1 with rfl | rfl <;> rcases h2 with rfl | rfl <;> decide
  · subst h1
    subst h2
    decide

theorem transitions_startAll (env : Env) (s : DownloadState) :
    TransitionsWithin allowedEdgeAmended s (startAllStep env s) := by
  intro tu su a b ha hb
  rcases statusAt_startAll_rel env s tu su a ha with ⟨b', hb', hrel⟩
  have hbb : b' = b := Option.some_inj.mp (hb'.symm.trans hb)
  subst hbb
  rcases hrel with rfl | ⟨rfl, h2⟩ | ⟨rfl, rfl⟩
  · exact Or.inl rfl
  · rcases h2 with rfl | rfl <;> decide
  · decide

/-- Counterexample for C3: two transitions the code performs lie outside the
spec's edge set: `pause` moves a `ready` (never started) subtask straight to
`pause`, and the fulfilled transfer path moves a subtask that a racing
`pause` already set to `pause` straight to `finish`. -/
theorem C3_counterexample :
    ¬ (∀ (url : String) (s : DownloadState),
        TransitionsWithin allowedEdge s (pauseStep url s)) ∧
    ¬ (∀ (env : Env) (tu su : String) (s : DownloadState),
        TransitionsWithin allowedEdge s (transferSuccess env tu su s)) := by
  constructor
  · intro h
    have h2 := h "T" c3readyState "T" "S" TaskStatus.ready TaskStatus.pause
      (by decide) (by decide)
    rcases h2 with h2 | h2
    · exact absurd h2 (by decide)
    · exact absurd h2 (by decide)
  · intro h
    have h2 := h env0 "T" "S" c3pausedState "T" "S" TaskStatus.pause
      TaskStatus.finish (by decide) (by decide)
    rcases h2 with h2 | h2
    · exact absurd h2 (by decide)
    · exact absurd h2 (by decide)

/-- C3 amended: subtask statuses change only along the spec's six edges
extended with `ready→pause` (`pause` also pauses not-yet-started subtasks)
and `pause→pending`, `fail→pending` (`start` with `reset` performs
`pause/fail→ready` and `ready→pending` within one call); for the transfer
completion and failure paths this holds provided the transferred subtask is
still `pending` when they fire (the counterexample shows a completion racing
a `pause` escapes even the extended set). -/
theorem C3_transitions_amended (env : Env) (s : DownloadState)
    (url tu su : String) (reset : Bool) :
    TransitionsWithin allowedEdgeAmended s (pauseStep url s) ∧
    TransitionsWithin allowedEdgeAmended s (pauseAllStep s) ∧
    TransitionsWithin allowedEdgeAmended s (startStep env url reset s) ∧
    TransitionsWithin allowedEdgeAmended s (startAllStep env s) ∧
    (statusAt s tu su = some TaskStatus.pending →
      TransitionsWithin allowedEdgeAmended s (transferSuccess env tu su s)) ∧
    (statusAt s tu su = some TaskStatus.pending →
      TransitionsWithin allowedEdgeAmended s (transferCatch tu su s)) :=
  ⟨transitions_pauseStep url s, transitions_pauseAll s,
   transitions_startStep env url reset s, transitions_startAll env s,
   fun hp => transitions_transferSuccess env tu su s hp,
   fun hp => transitions_transferCatch tu su s hp⟩

/-- Witness for C3 at concrete inputs: completing the pending subtask of
`w3pendState` makes the transition `pending→finish`, which the amended edge
set allows. -/
theorem C3_transitions_amended_witness :
    TaskStatus.pending = TaskStatus.finish ∨
    allowedEdgeAmended TaskStatus.pending TaskStatus.finish = true :=
  (C3_transitions_amended env0 w3pendState "T" "T" "S" false).2.2.2.2.1
    (by decide) "T" "S" TaskStatus.pending TaskStatus.finish
    (by decide) (by decide)

/-- C5 amended: `startAll` transitions every `pause` subtask out of `pause` -
to `ready`, possibly immediately advanced to `pending` by the chained
`start` call - but leaves every `fail` subtask in `fail`; `fail→ready`
happens only through `start` with `reset = true`. -/
theorem C5_startAll_amended (env : Env) (s : DownloadState) (tu su : String) :
    (statusAt s tu su = some TaskStatus.pause →
      statusAt (startAllStep env s) tu su = some TaskStatus.ready ∨
      statusAt (startAllStep env s) tu su = some TaskStatus.pending) ∧
    (statusAt s tu su = some TaskStatus.fail →
      statusAt (startAllStep env s) tu su = some TaskStatus.fail) :=
  ⟨fun h => statusAt_startAll_pause env s tu su h,
   fun h => statusAt_startAll_fail env s tu su h⟩

/-- Witness for C5 at concrete inputs: `startAll` on a paused subtask ends
in `ready` or `pending`, and on a failed subtask it stays `fail`. -/
theorem C5_startAll_amended_witness :
    (statusAt (startAllStep env0 w5pauseState) "T" "S" = some TaskStatus.ready ∨
     statusAt (startAllStep env0 w5pauseState) "T" "S"
       = some TaskStatus.pending) ∧
    statusAt (startAllStep env0 w5failState) "T" "S" = some TaskStatus.fail :=
  ⟨(C5_startAll_amended env0 w5pauseState "T" "S").1 (by decide),
   (C5_startAll_amended env0 w5failState "T" "S").2 (by decide)⟩
